import Mathlib

/-!
Verification development for the migration-assessment engine
(`backend/routers/assessment.py` and `backend/services/classifier.py`).

The Python code is shallowly embedded: JSON-like Python values are the
inductive type `PyVal`; Python floats are modelled as rationals (every
numeric constant in the embedded code is a small decimal, and none of the
verified properties is sensitive to binary floating-point rounding);
Python dicts keyed by strings become association lists or total functions;
the stdlib `json.loads` is an abstract collaborator, passed in as a
function `loads : String -> Option PyVal` (`Option.none` = parse error).
-/

namespace Jarvis

/-- Model of a Python/JSON value as produced by `json.loads` or stored in
the database rows.  (Float literals do not occur in findings records used
by the code, so numbers are modelled as integers.) -/
inductive PyVal where
  | none
  | bool (b : Bool)
  | int (n : Int)
  | str (s : String)
  | list (xs : List PyVal)
  | dict (kvs : List (String × PyVal))

/-- Python truthiness (`if x:`) for the modelled values. -/
def pyTruthy : PyVal → Bool
  | .none => false
  | .bool b => b
  | .int n => n != 0
  | .str s => s != ""
  | .list xs => !xs.isEmpty
  | .dict kvs => !kvs.isEmpty

/-- Python `a or b`: `a` if truthy, else `b`. -/
def pyOr (a b : PyVal) : PyVal := if pyTruthy a then a else b

/-- Python `d.get(k, dflt)` on a dict (association list). -/
def pyGet (kvs : List (String × PyVal)) (k : String) (d : PyVal) : PyVal :=
  match kvs.find? (fun kv => kv.1 = k) with
  | some kv => kv.2
  | Option.none => d

/-- Python `str(x)`.  Faithful on the scalar values the extractor feeds it
(strings, None, booleans, integers); the `repr`-style rendering of nested
containers is abbreviated, as no verified property inspects it. -/
def pyStr : PyVal → String
  | .str s => s
  | .none => "None"
  | .bool b => if b then "True" else "False"
  | .int n => toString n
  | .list _ => "[...]"
  | .dict _ => "[...]"

/-- Python `s.lower()` (ASCII case folding, as used by the code). -/
def pyLower (s : String) : String := ⟨s.data.map Char.toLower⟩

/-- Python iteration `for x in v`: lists yield elements, strings yield
1-character strings, dicts yield their keys; other values are not iterable
(Python raises `TypeError`, modelled as `Option.none`). -/
def pyIterL : PyVal → Option (List PyVal)
  | .list xs => some xs
  | .str s => some (s.data.map (fun c => PyVal.str ⟨[c]⟩))
  | .dict kvs => some (kvs.map (fun kv => PyVal.str kv.1))
  | _ => Option.none

/-- `_parse_findings` (assessment.py): normalize the raw findings value to
a list of records.  `loads` models `json.loads`; any parse failure or
non-list/dict parse degrades to `[]`. -/
def parseFindings (loads : String → Option PyVal) : PyVal → List PyVal
  | .list xs => xs
  | .dict kvs => [PyVal.dict kvs]
  | .str s =>
      match loads s with
      | some (.list xs) => xs
      | some (.dict kvs) => [PyVal.dict kvs]
      | _ => []
  | _ => []

/-- One `app_links` entry of the integration model. -/
structure AppLink where
  target : String
  coupling : String
deriving DecidableEq

/-- One `db_links` entry of the integration model. -/
structure DbLink where
  datastore : String
  coupling : String
deriving DecidableEq

/-- The normalized integration model (`_extract_integration_model` output). -/
structure IModel where
  app_links : List AppLink
  db_links : List DbLink
  tags : List String
deriving DecidableEq

/-- Strict lexicographic order on character lists (Python string `<`). -/
def lexLt : List Char → List Char → Bool
  | [], [] => false
  | [], _ :: _ => true
  | _ :: _, [] => false
  | a :: as, b :: bs => a < b || (a = b && lexLt as bs)

/-- Insert into an ascending list (helper for Python `sorted`). -/
def insertAscStr (s : String) : List String → List String
  | [] => [s]
  | t :: ts => if lexLt s.data t.data then s :: t :: ts else t :: insertAscStr s ts

/-- Python `sorted(l)` for strings (stable; here applied to dedup'd lists). -/
def sortAscStr (l : List String) : List String :=
  l.foldl (fun acc s => insertAscStr s acc) []

/-- Keep the first occurrence of each element (Python `set` insertion view). -/
def dedup (l : List String) : List String :=
  l.foldl (fun acc s => if s ∈ acc then acc else acc ++ [s]) []

/-- `app_links` rows produced by one `integration_points` entry `p`:
emitted iff `p` is a dict with a truthy `target`; coupling falls back from
the point to the record to `"loose"`. -/
def pointLinks (kvs : List (String × PyVal)) (p : PyVal) : List AppLink :=
  match p with
  | .dict pkvs =>
      if pyTruthy (pyGet pkvs ("target") PyVal.none) then
        [⟨pyStr (pyGet pkvs ("target") PyVal.none),
          pyLower (pyStr (pyOr (pyGet pkvs ("coupling") PyVal.none)
            (pyOr (pyGet kvs ("coupling") PyVal.none) (PyVal.str ("loose")))))⟩]
      else []
  | _ => []

/-- `app_links` rows from the flat `targets` fallback of an
`app_to_app_integration` record (`for t in item.get("targets") or []`).
A non-iterable `targets` value raises in Python; here it contributes
nothing and is flagged by `itemCheck` instead. -/
def targetLinks (kvs : List (String × PyVal)) : List AppLink :=
  match pyIterL (pyOr (pyGet kvs ("targets") PyVal.none) (.list [])) with
  | some ts =>
      ts.map (fun t =>
        ⟨pyStr t, pyLower (pyStr (pyOr (pyGet kvs ("coupling") PyVal.none) (PyVal.str ("loose"))))⟩)
  | Option.none => []

/-- `db_links` rows of one `app_to_db_integration` record: one row per
datastore entry whose lowercased rendering is nonempty and not `"none"`. -/
def dbLinksOf (kvs : List (String × PyVal)) : List DbLink :=
  let coupling := pyLower (pyStr (pyOr (pyGet kvs ("coupling") PyVal.none) (PyVal.str ("loose"))))
  match pyIterL (pyOr (pyGet kvs ("datastores") PyVal.none) (.list [])) with
  | some ds =>
      (ds.map (fun d => pyLower (pyStr d))).filterMap (fun s =>
        if s ≠ "" ∧ s ≠ "none" then some (⟨s, coupling⟩ : DbLink) else Option.none)
  | Option.none => []

/-- Tags contributed by one findings record (nonempty only for
`"metadata"` records with a list-valued `tags` field). -/
def itemTags (item : PyVal) : List String :=
  match item with
  | .dict kvs =>
      let ftype := pyLower (pyStr (pyGet kvs ("type") (PyVal.str (""))))
      if ftype = "metadata" then
        match pyOr (pyGet kvs ("tags") PyVal.none) (.list []) with
        | .list ts => (ts.filter pyTruthy).map (fun t => pyLower (pyStr t))
        | _ => []
      else []
  | _ => []

/-- `app_links` contributed by one findings record (the
`"app_to_app_integration"` branch of the elif chain: nonempty
`integration_points` win, otherwise the flat `targets` fallback). -/
def itemAppLinks (item : PyVal) : List AppLink :=
  match item with
  | .dict kvs =>
      let ftype := pyLower (pyStr (pyGet kvs ("type") (PyVal.str (""))))
      if ftype = "metadata" then []
      else if ftype = "app_to_app_integration" then
        match pyGet kvs ("integration_points") PyVal.none with
        | .list ps => if ps.isEmpty then targetLinks kvs else (ps.map (pointLinks kvs)).flatten
        | _ => targetLinks kvs
      else []
  | _ => []

/-- `db_links` contributed by one findings record (the
`"app_to_db_integration"` branch of the elif chain). -/
def itemDbLinks (item : PyVal) : List DbLink :=
  match item with
  | .dict kvs =>
      let ftype := pyLower (pyStr (pyGet kvs ("type") (PyVal.str (""))))
      if ftype = "metadata" then []
      else if ftype = "app_to_app_integration" then []
      else if ftype = "app_to_db_integration" then dbLinksOf kvs
      else []
  | _ => []

/-- Dispatch of `_extract_integration_model` on one findings record: each
record appends its contribution to exactly one of the three lists
(non-dict records contribute nothing). -/
def extractItem (st : IModel) (item : PyVal) : IModel :=
  ⟨st.app_links ++ itemAppLinks item, st.db_links ++ itemDbLinks item, st.tags ++ itemTags item⟩

/-- `_extract_integration_model` (assessment.py): fold the records into
app links, db links and a sorted de-duplicated tag list. -/
def extractIntegrationModel (loads : String → Option PyVal) (findingsRaw : PyVal) : IModel :=
  let st := (parseFindings loads findingsRaw).foldl extractItem ⟨[], [], []⟩
  { st with tags := sortAscStr (dedup st.tags) }

/-- `true` iff Python would get through one findings record without a
`TypeError`: an `app_to_app_integration` record that falls back to the
flat `targets` list needs an iterable (or falsy) `targets` value, and an
`app_to_db_integration` record needs an iterable (or falsy) `datastores`
value.  Everything else is tolerated. -/
def itemCheck (item : PyVal) : Bool :=
  match item with
  | .dict kvs =>
      let ftype := pyLower (pyStr (pyGet kvs ("type") (PyVal.str (""))))
      if ftype = "app_to_app_integration" then
        match pyGet kvs ("integration_points") PyVal.none with
        | .list ps =>
            if ps.isEmpty then (pyIterL (pyOr (pyGet kvs ("targets") PyVal.none) (.list []))).isSome
            else true
        | _ => (pyIterL (pyOr (pyGet kvs ("targets") PyVal.none) (.list []))).isSome
      else if ftype = "app_to_db_integration" then
        (pyIterL (pyOr (pyGet kvs ("datastores") PyVal.none) (.list []))).isSome
      else true
  | _ => true

/-- `true` iff `_extract_integration_model` runs the given findings value
to completion in Python without raising. -/
def extractCheck (loads : String → Option PyVal) (f : PyVal) : Bool :=
  (parseFindings loads f).all itemCheck

/-! ## Instruction Override Resolver (`_apply_pattern_instructions`) -/

/-- The five migration pattern categories, in declaration order. -/
def pids5 : List String := ["P1", "P2", "P3", "P4", "P5"]

/-- Split a character list on commas (Python `text.split(",")`). -/
def splitComma : List Char → List (List Char)
  | [] => [[]]
  | c :: rest =>
      if c = ',' then [] :: splitComma rest
      else
        match splitComma rest with
        | [] => [[c]]
        | g :: gs => (c :: g) :: gs

/-- Python `s.strip()` (whitespace trimmed at both ends). -/
def stripChars (l : List Char) : List Char :=
  ((l.dropWhile Char.isWhitespace).reverse.dropWhile Char.isWhitespace).reverse

/-- `true` iff `sub` occurs as a contiguous substring (Python `in`). -/
def hasSub (sub s : List Char) : Bool :=
  s.tails.any (fun t => sub.isPrefixOf t)

/-- The keyword list of one instruction text:
`[k.strip().lower() for k in text.split(",") if k.strip()]`. -/
def kwList (text : String) : List (List Char) :=
  (((splitComma text.data).map stripChars).filter (fun k => !k.isEmpty)).map
    (fun k => k.map Char.toLower)

/-- Keyword-hit count of one category: over the first 50 keywords, how
many occur as substrings of the (lowercased) content sample. -/
def kwHits (content : String) (text : String) : Nat :=
  ((kwList text).take 50).countP (fun kw => hasSub kw ((pyLower content).data))

/-- The `max(scores, key=...)` step: first category (in `P1..P5` insertion
order) whose hit count is maximal. -/
def bestPid (score : String → Nat) : String :=
  (pids5.tail).foldl (fun b p => if score b < score p then p else b) ("P1")

/-- `_apply_pattern_instructions` (assessment.py).  The per-category
instruction mapping is modelled as a total function (absent categories map
to `""`, which yields no keywords, exactly like the skipped dict entry). -/
def applyPatternInstructions (classifiedPattern : String) (contentSample : String)
    (instructions : String → String) : String :=
  let score := fun pid => kwHits contentSample (instructions pid)
  let best := bestPid score
  if 2 ≤ score best then best else classifiedPattern

/-! ## Signal Scorer and Pattern Classifier (`services/classifier.py`)

The signal table uses a small regex fragment: literal characters, `.`
(any character except newline), `.?`, `.*`, top-level alternation `|`,
escaped literals (`\.`), and the end anchor `$`.  The matcher below
implements exactly that fragment; `re.IGNORECASE` is accounted for by
matching the lowercased input against the (already lowercase) patterns,
and case-sensitive searches are run on the raw text. -/

/-- One atom of a regex alternative. -/
inductive Atom where
  | lit (c : Char)
  | dot
  | dotOpt
  | dotStar
  | endA
deriving DecidableEq

/-- Suffixes reachable from `s` by consuming zero or more non-newline
characters (the candidate continuations of `.*`). -/
def starTails : List Char → List (List Char)
  | [] => [[]]
  | c :: cs => (c :: cs) :: (if c = '\n' then [] else starTails cs)

/-- Match one alternative (a sequence of atoms) at the start of `s`.
`$` matches at the end of the input or just before a sole trailing
newline, as in Python without `re.MULTILINE`. -/
def matchSeq : List Atom → List Char → Bool
  | [], _ => true
  | .lit c :: as, x :: xs => x = c && matchSeq as xs
  | .lit _ :: _, [] => false
  | .dot :: as, x :: xs => decide (x ≠ '\n') && matchSeq as xs
  | .dot :: _, [] => false
  | .dotOpt :: as, [] => matchSeq as []
  | .dotOpt :: as, x :: xs => matchSeq as (x :: xs) || (decide (x ≠ '\n') && matchSeq as xs)
  | .dotStar :: as, s => (starTails s).any (fun t => matchSeq as t)
  | .endA :: as, s => (decide (s = []) || decide (s = ['\n'])) && matchSeq as s

/-- All suffixes of `s` (the candidate match start positions). -/
def allTails : List Char → List (List Char)
  | [] => [[]]
  | c :: cs => (c :: cs) :: allTails cs

/-- A string of literal atoms. -/
def lits (s : String) : List Atom := s.data.map Atom.lit

/-- Python `re.search(pattern, s)` as a Boolean: some alternative matches
at some position. -/
def reSearch (alts : List (List Atom)) (s : List Char) : Bool :=
  (allTails s).any (fun t => alts.any (fun a => matchSeq a t))

/-- One entry of the `SIGNALS` table: the Python regex source text, its
translation to the regex fragment, the target pattern category, and the
weight in hundredths (the Python float literals are exact hundredths;
`sigW` recovers the rational weight). -/
structure Signal where
  src : String
  re : List (List Atom)
  pid : String
  wc : Nat

/-- The weight of a signal as a rational (`wc` hundredths). -/
def sigW (s : Signal) : ℚ := (s.wc : ℚ) / 100

/-- The identifier recorded in `signals_hit`: `f"{pattern_id}:{regex}"`. -/
def sigId (s : Signal) : String := s.pid ++ ":" ++ s.src

/-- The `SIGNALS` table of classifier.py, in declaration order. -/
def SIGNALS : List Signal := [
  ⟨"terraform", [lits ("terraform")], "P1", 30⟩,
  ⟨"\\.tf$", [lits (".tf") ++ [.endA]], "P1", 30⟩,
  ⟨"github.?actions|\\.github", [lits ("github") ++ [.dotOpt] ++ lits ("actions"), lits (".github")], "P1", 20⟩,
  ⟨"azure.?vm|azurerm_virtual", [lits ("azure") ++ [.dotOpt] ++ lits ("vm"), lits ("azurerm_virtual")], "P1", 40⟩,
  ⟨"startup.?script|systemd|service.?unit", [lits ("startup") ++ [.dotOpt] ++ lits ("script"), lits ("systemd"), lits ("service") ++ [.dotOpt] ++ lits ("unit")], "P1", 30⟩,
  ⟨"nginx|apache|iis", [lits ("nginx"), lits ("apache"), lits ("iis")], "P1", 25⟩,
  ⟨"main\\.tf|variables\\.tf", [lits ("main.tf"), lits ("variables.tf")], "P1", 35⟩,
  ⟨"app.?server|web.?server", [lits ("app") ++ [.dotOpt] ++ lits ("server"), lits ("web") ++ [.dotOpt] ++ lits ("server")], "P1", 20⟩,
  ⟨"load.?balanc", [lits ("load") ++ [.dotOpt] ++ lits ("balanc")], "P2", 40⟩,
  ⟨"azure_lb|azurerm_lb", [lits ("azure_lb"), lits ("azurerm_lb")], "P2", 50⟩,
  ⟨"backend.?pool|frontend.?ip", [lits ("backend") ++ [.dotOpt] ++ lits ("pool"), lits ("frontend") ++ [.dotOpt] ++ lits ("ip")], "P2", 40⟩,
  ⟨"health.?probe|health.?check", [lits ("health") ++ [.dotOpt] ++ lits ("probe"), lits ("health") ++ [.dotOpt] ++ lits ("check")], "P2", 30⟩,
  ⟨"ingress|ssl.?cert|https", [lits ("ingress"), lits ("ssl") ++ [.dotOpt] ++ lits ("cert"), lits ("https")], "P2", 20⟩,
  ⟨"traffic.?manager|app.?gateway", [lits ("traffic") ++ [.dotOpt] ++ lits ("manager"), lits ("app") ++ [.dotOpt] ++ lits ("gateway")], "P2", 35⟩,
  ⟨"port.*80|port.*443", [lits ("port") ++ [.dotStar] ++ lits ("80"), lits ("port") ++ [.dotStar] ++ lits ("443")], "P2", 15⟩,
  ⟨"sql|database|db", [lits ("sql"), lits ("database"), lits ("db")], "P3", 25⟩,
  ⟨"azure.?sql|azurerm_sql|mssql", [lits ("azure") ++ [.dotOpt] ++ lits ("sql"), lits ("azurerm_sql"), lits ("mssql")], "P3", 50⟩,
  ⟨"postgres|postgresql|pg", [lits ("postgres"), lits ("postgresql"), lits ("pg")], "P3", 30⟩,
  ⟨"mysql|mariadb", [lits ("mysql"), lits ("mariadb")], "P3", 30⟩,
  ⟨"flyway|liquibase|alembic|migrate", [lits ("flyway"), lits ("liquibase"), lits ("alembic"), lits ("migrate")], "P3", 30⟩,
  ⟨"connectionstring|datasource.url", [lits ("connectionstring"), lits ("datasource") ++ [.dot] ++ lits ("url")], "P3", 35⟩,
  ⟨"dms|data.?migration|replicat", [lits ("dms"), lits ("data") ++ [.dotOpt] ++ lits ("migration"), lits ("replicat")], "P3", 40⟩,
  ⟨"entity.?framework|hibernate|jpa", [lits ("entity") ++ [.dotOpt] ++ lits ("framework"), lits ("hibernate"), lits ("jpa")], "P3", 25⟩,
  ⟨"\\.sql$|schema\\.sql|init\\.sql", [lits (".sql") ++ [.endA], lits ("schema.sql"), lits ("init.sql")], "P3", 40⟩,
  ⟨"manifest\\.yml|cf.?manifest", [lits ("manifest.yml"), lits ("cf") ++ [.dotOpt] ++ lits ("manifest")], "P4", 60⟩,
  ⟨"buildpack|cloudfoundry|pcf", [lits ("buildpack"), lits ("cloudfoundry"), lits ("pcf")], "P4", 60⟩,
  ⟨"cf push|cf create", [lits ("cf push"), lits ("cf create")], "P4", 50⟩,
  ⟨"kubernetes|k8s|kubectl", [lits ("kubernetes"), lits ("k8s"), lits ("kubectl")], "P4", 40⟩,
  ⟨"deployment\\.yaml|service\\.yaml", [lits ("deployment.yaml"), lits ("service.yaml")], "P4", 40⟩,
  ⟨"dockerfile|docker-compose", [lits ("dockerfile"), lits ("docker-compose")], "P4", 35⟩,
  ⟨"helm|helmfile", [lits ("helm"), lits ("helmfile")], "P4", 40⟩,
  ⟨"spring.?boot|spring.?cloud", [lits ("spring") ++ [.dotOpt] ++ lits ("boot"), lits ("spring") ++ [.dotOpt] ++ lits ("cloud")], "P4", 20⟩,
  ⟨"\\.jar$|mvn|gradle", [lits (".jar") ++ [.endA], lits ("mvn"), lits ("gradle")], "P4", 15⟩,
  ⟨"service.?bus|servicebus", [lits ("service") ++ [.dotOpt] ++ lits ("bus"), lits ("servicebus")], "P5", 60⟩,
  ⟨"event.?hub|eventhub", [lits ("event") ++ [.dotOpt] ++ lits ("hub"), lits ("eventhub")], "P5", 50⟩,
  ⟨"azure.*messag|amqp", [lits ("azure") ++ [.dotStar] ++ lits ("messag"), lits ("amqp")], "P5", 50⟩,
  ⟨"queue|topic|subscription", [lits ("queue"), lits ("topic"), lits ("subscription")], "P5", 30⟩,
  ⟨"pub.?sub|pubsub|google.*pub", [lits ("pub") ++ [.dotOpt] ++ lits ("sub"), lits ("pubsub"), lits ("google") ++ [.dotStar] ++ lits ("pub")], "P5", 30⟩,
  ⟨"kafka|rabbitmq|activemq", [lits ("kafka"), lits ("rabbitmq"), lits ("activemq")], "P5", 25⟩,
  ⟨"message.?flow|integration.?flow", [lits ("message") ++ [.dotOpt] ++ lits ("flow"), lits ("integration") ++ [.dotOpt] ++ lits ("flow")], "P5", 35⟩,
  ⟨"dead.?letter|dlq", [lits ("dead") ++ [.dotOpt] ++ lits ("letter"), lits ("dlq")], "P5", 40⟩,
  ⟨"@serviceactivator|@messaginggateway", [lits ("@serviceactivator"), lits ("@messaginggateway")], "P5", 40⟩]

/-- One migration pattern record (the `Pattern` dataclass). -/
structure Pat where
  pid : String
  name : String
  short : String
  gcp_target : String
  description : String
  confidence_threshold : ℚ := 4/10

/-- The `PATTERNS` mapping (total on `P1..P5`; other keys are never
looked up by the code). -/
def PATTERNS : String → Pat
  | "P2" => ⟨"P2", "Load Balancer Migration", "lb", "Cloud Load Balancing", "Migrate Azure Load Balancer to GCP Cloud Load Balancing", 4/10⟩
  | "P3" => ⟨"P3", "Database Rebuild", "db", "Cloud SQL", "Rebuild database on Cloud SQL + DMS data replication", 4/10⟩
  | "P4" => ⟨"P4", "PCF → GKE", "gke", "GKE", "Migrate Pivotal Cloud Foundry apps to Google Kubernetes Engine", 4/10⟩
  | "P5" => ⟨"P5", "Messaging Rebuild", "pubsub", "Pub/Sub", "Rebuild messaging platform — Azure Service Bus / Event Hub → Pub/Sub", 4/10⟩
  | _ => ⟨"P1", "GCE Replatform", "gce", "GCE", "Redeploy app server to GCE — update Terraform & GitHub Actions", 4/10⟩

/-- The classifier output record (the `ClassifyResult` dataclass; the
per-category score dict is modelled as a total function that is `0`
outside `P1..P5`). -/
structure ClassifyResult where
  pattern_id : String
  pattern_name : String
  gcp_target : String
  confidence : ℚ
  scores : String → ℚ
  signals_hit : List String
  risk_score : ℚ
  complexity : String
  findings : List String

/-- `min(1.0, a + w)`: one capped score addition. -/
def capAdd (a w : ℚ) : ℚ := min 1 (a + w)

/-- Accumulator of the signal loop: the score dict and the fired list. -/
structure ScoreAcc where
  scores : String → ℚ
  hits : List String

/-- One iteration of the signal loop. -/
def scoreStep (blob : List Char) (acc : ScoreAcc) (s : Signal) : ScoreAcc :=
  if reSearch s.re blob then
    { scores := fun p => if p = s.pid then capAdd (acc.scores s.pid) (sigW s) else acc.scores p,
      hits := acc.hits ++ [sigId s] }
  else acc

/-- The signal loop of `classify_repo` over the whole table. -/
def runSignals (blob : List Char) : ScoreAcc :=
  SIGNALS.foldl (scoreStep blob) ⟨fun _ => 0, []⟩

/-- `max(scores, key=lambda p: scores[p])`: first key (in the insertion
order `P1..P5`) attaining the maximal score. -/
def argmaxPid (score : String → ℚ) : String :=
  (pids5.tail).foldl (fun b p => if score b < score p then p else b) ("P1")

/-- Python `round(q, 2)`. -/
def round2 (q : ℚ) : ℚ := ((round (q * 100) : ℤ) : ℚ) / 100

/-- Python `round(q, 1)`. -/
def round1 (q : ℚ) : ℚ := ((round (q * 10) : ℤ) : ℚ) / 10

/-- Python `" ".join(files)`. -/
def joinSpace : List String → String
  | [] => ""
  | [s] => s
  | s :: rest => s ++ " " ++ joinSpace rest

/-- The combined lowercase blob scored by the classifier:
`" ".join(files).lower() + "\n" + content_sample.lower()`. -/
def classifierBlob (files : List String) (contentSample : String) : List Char :=
  (pyLower (joinSpace files)).data ++ '\n' :: (pyLower contentSample).data

/-- `r"secret|password|credential|api.?key"` (matched case-insensitively). -/
def reSecret : List (List Atom) :=
  [lits ("secret"), lits ("password"), lits ("credential"), lits ("api") ++ [.dotOpt] ++ lits ("key")]

/-- `r"legacy|deprecated|eof|end.?of.?life"` (matched case-insensitively). -/
def reLegacy : List (List Atom) :=
  [lits ("legacy"), lits ("deprecated"), lits ("eof"),
   lits ("end") ++ [.dotOpt] ++ lits ("of") ++ [.dotOpt] ++ lits ("life")]

/-- Python `f.endswith(suffix)`. -/
def listPref : List Char → List Char → Bool
  | [], _ => true
  | _ :: _, [] => false
  | a :: as, b :: bs => a = b && listPref as bs

/-- Python `s.endswith(suffix)`. -/
def sEndsWith (s suf : String) : Bool := listPref suf.data.reverse s.data.reverse

/-- `_calc_risk` before the final `round(., 1)`: heuristic risk, a base
of 4.0 plus the category and content increments, capped at 10.0. -/
def calcRiskVal (files : List String) (content : String) (pid : String) : ℚ :=
  min 10 (4 + (if pid = "P3" then 2 else 0) + (if pid = "P4" then 3/2 else 0)
    + (if pid = "P5" then 3/2 else 0)
    + (if reSearch reSecret ((pyLower content).data) then 1/2 else 0)
    + (if reSearch reLegacy ((pyLower content).data) then 1/2 else 0)
    + (if files.any (fun f => sEndsWith f (".sql")) then 1/2 else 0))

/-- `_generate_findings`: the fixed ordered checklist (capped at 10). -/
def generateFindings (files : List String) (content : String) (pid : String) : List String :=
  let raw := content.data
  let low := (pyLower content).data
  let l1 := if reSearch [lits ("TODO"), lits ("FIXME"), lits ("HACK"), lits ("XXX")] raw then
    ["Code contains TODO/FIXME markers"] else []
  let l2 := if reSearch [lits ("localhost"), lits ("127.0.0.1")] raw then
    ["Hardcoded localhost references detected — update for GCP"] else []
  let l3 := if reSearch [lits ("azure.com"), lits ("azurewebsites"), lits ("azurecontainer")] raw then
    ["Azure-specific hostnames detected — must be replaced with GCP endpoints"] else []
  let l4 := if reSearch [lits ("connectionstring") ++ [.dotStar] ++ lits ("azure"),
      lits ("azure") ++ [.dotStar] ++ lits ("connectionstring")] low then
    ["Azure connection strings present — update to Cloud SQL / GCP credentials"] else []
  let l5 := if reSearch [lits ("servicenow"), lits ("snow.com")] low then
    ["ServiceNow references present — configure integration"] else []
  let l6 := if reSearch [lits ("jenkins"), lits ("jenkinsfile")] low then
    ["Jenkins pipeline detected — will be updated for GCP deploy"] else []
  let l7 := if !(files.any (fun f => sEndsWith f (".tf"))) then
    ["No Terraform files found — will be generated by migration engine"] else []
  let l8 := if !(files.any (fun f => hasSub (".github".data) f.data || hasSub ("github/workflows".data) f.data)) then
    ["No GitHub Actions found — CI/CD pipeline will be generated"] else []
  let l9 := if pid = "P4" ∧ !(files.any (fun f => hasSub ("dockerfile".data) (pyLower f).data)) then
    ["PCF app without Dockerfile — Dockerfile will be generated for GKE"] else []
  let l10 := if pid = "P3" ∧ reSearch [lits ("mssql"), lits ("sqlserver"),
      lits ("azure") ++ [.dotStar] ++ lits ("sql")] low then
    ["MSSQL/Azure SQL detected — DMS heterogeneous migration required"] else []
  (l1 ++ l2 ++ l3 ++ l4 ++ l5 ++ l6 ++ l7 ++ l8 ++ l9 ++ l10).take 10

/-- `len(content_sample.split("\n"))`: newline count plus one. -/
def locEstimate (content : String) : Nat := content.data.count '\n' + 1

/-- `classify_repo` (classifier.py). -/
def classifyRepo (files : List String) (contentSample : String) : ClassifyResult :=
  let blob := classifierBlob files contentSample
  let acc := runSignals blob
  let best0 := argmaxPid acc.scores
  let noSig := acc.scores best0 < (1/10 : ℚ)
  let bp := if noSig then "P1" else best0
  let bestScore : ℚ := if noSig then 3/20 else acc.scores best0
  let pat := PATTERNS bp
  { pattern_id := bp
    pattern_name := pat.name
    gcp_target := pat.gcp_target
    confidence := round2 (min (99/100) bestScore)
    scores := fun p => round2 (acc.scores p)
    signals_hit := acc.hits.take 20
    risk_score := round1 (calcRiskVal files contentSample bp)
    complexity := if locEstimate contentSample < 500 then "low"
      else if 5000 < locEstimate contentSample then "high" else "medium"
    findings := generateFindings files contentSample bp }

/-! ## Applications, Dependency Graph Builder, Bundle Clusterer
(`assessment.py`, routes `/graph/{run_id}` and `/bundles/{run_id}`)

An `App` is the projection of an application row that the two routes
select (`id, name, pattern_id, gcp_target, risk_score, findings_json`);
`findings` is the parsed findings value handed to the extractor. -/

/-- An application row of a scan run, as read by the graph and bundle
routes. -/
structure App where
  id : String
  name : String
  pattern_id : String
  gcp_target : String
  risk_score : ℚ
  findings : PyVal

/-- Python `s.upper()` (ASCII case folding). -/
def pyUpper (s : String) : String := ⟨s.data.map Char.toUpper⟩

/-- A node of the visualization graph (optional attributes are only
present on the node kinds that set them). -/
structure GNode where
  nid : String
  label : String
  ntype : String
  pattern : Option String := Option.none
  risk_score : Option ℚ := Option.none
  risk : Option String := Option.none
  critical : Option Bool := Option.none

/-- An edge of the visualization graph (`src`/`dst` are the `from`/`to`
fields). -/
structure GEdge where
  src : String
  dst : String
  etype : String
  label : String
  coupling : Option String := Option.none
  weight : Option Nat := Option.none

/-- Provenance of a `calls` edge (claim C10, amended): the edge was
produced from one `app_links` entry of one in-run application and
carries that link's coupling; if the link's target is an in-run
application id, the edge goes to that application with weight 3 if the
coupling is `"tight"` else 1 (so a tight in-run link always yields
weight 3), and otherwise it goes to the `ext-` node with weight always
1, even when the coupling is `"tight"`. -/
def callsEdgeFrom (loads : String → Option PyVal) (apps : List App) (e : GEdge) : Prop :=
  ∃ app ∈ apps, ∃ l ∈ (extractIntegrationModel loads app.findings).app_links,
    e.src = app.id ∧ e.etype = "app" ∧ e.coupling = some l.coupling ∧
    ((l.target ∈ apps.map App.id ∧ e.dst = l.target ∧
      e.weight = some (if l.coupling = "tight" then 3 else 1)) ∨
     (l.target ∉ apps.map App.id ∧ e.dst = "ext-" ++ l.target ∧ e.weight = some 1))

/-- Builder state of `dependency_graph`: emitted nodes and edges plus the
`seen_nodes` dedup set. -/
structure GState where
  nodes : List GNode
  edges : List GEdge
  seen : List String

/-- `add_node`: append the node unless its id was already seen
(first-seen attributes win). -/
def addNode (st : GState) (n : GNode) : GState :=
  if n.nid ∈ st.seen then st
  else { st with seen := st.seen ++ [n.nid], nodes := st.nodes ++ [n] }

/-- One `app_links` entry of `dependency_graph`: a `calls` edge to an
in-run application (weight 3 if tight else 1) or to a deduplicated
external-application node (weight always 1). -/
def graphAppLink (ids : List String) (appId : String) (st : GState) (l : AppLink) : GState :=
  if l.target ∈ ids then
    { st with edges := st.edges ++ [⟨appId, l.target, "app", "calls", some l.coupling,
        some (if l.coupling = "tight" then 3 else 1)⟩] }
  else
    let extId := "ext-" ++ l.target
    let st1 := addNode st ⟨extId, l.target, "external_app", Option.none, Option.none, Option.none, Option.none⟩
    { st1 with edges := st1.edges ++ [⟨appId, extId, "app", "calls", some l.coupling, some 1⟩] }

/-- One `db_links` entry of `dependency_graph`: a deduplicated datastore
node and a `reads/writes` edge (weight 4 if tight else 2). -/
def graphDbLink (appId : String) (st : GState) (d : DbLink) : GState :=
  let dbNode := "db-" ++ d.datastore
  let st1 := addNode st ⟨dbNode, pyUpper d.datastore, "db", Option.none, Option.none, Option.none, Option.none⟩
  { st1 with edges := st1.edges ++ [⟨appId, dbNode, "db", "reads/writes", some d.coupling,
      some (if d.coupling = "tight" then 4 else 2)⟩] }

/-- The per-application body of the `dependency_graph` loop. -/
def graphApp (loads : String → Option PyVal) (ids : List String) (st : GState) (app : App) : GState :=
  let risk := app.risk_score
  let st1 := addNode st ⟨app.id, app.name, "app", some app.pattern_id, some risk,
      some (if (70:ℚ) ≤ risk then "high" else if (40:ℚ) ≤ risk then "medium" else "low"),
      some (decide ((70:ℚ) ≤ risk))⟩
  let tid := "gcp-" ++ app.id
  let st2 := addNode st1 ⟨tid, (if app.gcp_target = "" then "GCP" else app.gcp_target), "gcp",
      Option.none, Option.none, Option.none, Option.none⟩
  let st3 := { st2 with edges := st2.edges ++ [⟨app.id, tid, "api", "migrates_to", Option.none, Option.none⟩] }
  let model := extractIntegrationModel loads app.findings
  let st4 := model.app_links.foldl (graphAppLink ids app.id) st3
  model.db_links.foldl (graphDbLink app.id) st4

/-- `dependency_graph` (assessment.py): nodes and edges for one scan run. -/
def dependencyGraph (loads : String → Option PyVal) (apps : List App) : GState :=
  apps.foldl (graphApp loads (apps.map App.id)) ⟨[], [], []⟩

/-! ### Bundle Clusterer -/

/-- Adjacency/affinity state of the bundle clusterer: the `neighbors`
dict (modelled as a total function, `[]` outside the app ids) and the
`affinity_score` dict (`0` default, as read by `.get(key, 0)`). -/
structure BState where
  nbrs : String → List String
  aff : String × String → Nat

/-- `set.add`: insert unless present. -/
def insertNew (b : String) (l : List String) : List String := if b ∈ l then l else b :: l

/-- `tuple(sorted((a, b)))`: the undirected pair key. -/
def pairKey (a b : String) : String × String := if lexLt b.data a.data then (b, a) else (a, b)

/-- Add the undirected edge `a–b` and raise the pair affinity to at least
`w` (`affinity[key] = max(affinity.get(key, 0), w)`). -/
def addEdge (st : BState) (a b : String) (w : Nat) : BState :=
  let n1 := fun x => if x = a then insertNew b (st.nbrs a) else st.nbrs x
  let n2 := fun x => if x = b then insertNew a (n1 b) else n1 x
  { nbrs := n2, aff := fun k => if k = pairKey a b then max (st.aff (pairKey a b)) w else st.aff k }

/-- One explicit `app_links` entry: link to in-run targets with affinity
3 if tight else 1 (targets outside the run are skipped). -/
def appLinkStep (ids : List String) (appId : String) (st : BState) (l : AppLink) : BState :=
  if l.target ∈ ids then addEdge st appId l.target (if l.coupling = "tight" then 3 else 1) else st

/-- One `db_links` entry: if tight, link to every other in-run
application that has a db link to the same datastore, with affinity 4. -/
def dbLinkStep (loads : String → Option PyVal) (apps : List App) (appId : String)
    (st : BState) (d : DbLink) : BState :=
  if d.coupling = "tight" then
    apps.foldl (fun st2 other =>
      if other.id = appId then st2
      else if d.datastore ∈ (extractIntegrationModel loads other.findings).db_links.map DbLink.datastore
      then addEdge st2 appId other.id 4 else st2) st
  else st

/-- The per-application body of the adjacency-building loop. -/
def bundleApp (loads : String → Option PyVal) (apps : List App) (st : BState) (app : App) : BState :=
  let model := extractIntegrationModel loads app.findings
  let st1 := model.app_links.foldl (appLinkStep (apps.map App.id) app.id) st
  model.db_links.foldl (dbLinkStep loads apps app.id) st1

/-- The full adjacency/affinity structure of a run. -/
def buildBState (loads : String → Option PyVal) (apps : List App) : BState :=
  apps.foldl (bundleApp loads apps) ⟨fun _ => [], fun _ => 0⟩

/-- The inner `for nxt in neighbors[cur]` loop of the DFS: push (and mark
visited) each not-yet-visited neighbour. -/
def pushFresh : Finset String → List String → List String → Finset String × List String
  | v, s, [] => (v, s)
  | v, s, n :: ns => if n ∈ v then pushFresh v s ns else pushFresh (insert n v) (n :: s) ns

/-- The `while stack:` loop of the DFS, with explicit fuel (the loop pops
one node per iteration and every node is pushed at most once, so
`|ids| + 1` fuel always suffices — see `dfsLoop_spec`). -/
def dfsLoop (nbrs : String → List String) : Nat → Finset String → List String → List String →
    Finset String × List String
  | 0, v, _, c => (v, c)
  | _ + 1, v, [], c => (v, c)
  | fuel + 1, v, cur :: rest, c =>
      let p := pushFresh v rest (nbrs cur)
      dfsLoop nbrs fuel p.1 p.2 (cur :: c)

/-- The outer `for app_id in neighbors:` loop collecting connected
components. -/
def componentsLoop (nbrs : String → List String) (fuel : Nat) :
    List String → Finset String → List (List String) → Finset String × List (List String)
  | [], v, acc => (v, acc)
  | i :: ids, v, acc =>
      if i ∈ v then componentsLoop nbrs fuel ids v acc
      else
        let r := dfsLoop nbrs fuel (insert i v) [i] []
        componentsLoop nbrs fuel ids r.1 (acc ++ [r.2])

/-- Connected components of the adjacency structure over the given ids. -/
def componentsOf (nbrs : String → List String) (ids : List String) : List (List String) :=
  (componentsLoop nbrs (ids.length + 1) ids ∅ []).2

/-- Stable insertion into a size-descending list of components. -/
def insertDesc (c : List String) : List (List String) → List (List String)
  | [] => [c]
  | d :: ds => if d.length ≤ c.length then c :: d :: ds else d :: insertDesc c ds

/-- `components.sort(key=len, reverse=True)` (stable, size-descending). -/
def sortDesc (l : List (List String)) : List (List String) :=
  l.foldr insertDesc []

/-- Default application record (lookups in `app_map` never miss, since
components only hold ids of the run). -/
def dfltApp : App := ⟨"", "", "", "", 0, PyVal.none⟩

/-- `app_map[x]`: dict built from the app list (last id occurrence wins). -/
def appLookup (apps : List App) (x : String) : App :=
  ((apps.reverse).find? (fun a => a.id = x)).getD dfltApp

/-- Dominant pattern of a bundle: the pattern with the most member
applications, ties broken by first occurrence among the members (the
insertion order of the Python counts dict). -/
def domPattern (members : List App) : String :=
  match dedup (members.map App.pattern_id) with
  | [] => ""
  | p :: rest => rest.foldl (fun b q =>
      if (members.countP (fun m => m.pattern_id = b)) < (members.countP (fun m => m.pattern_id = q))
      then q else b) p

/-- `[tuple(sorted((a, b))) for a in comp for b in comp if a < b]`. -/
def internalPairs (comp : List String) : List (String × String) :=
  (comp.product comp).filter (fun p => lexLt p.1.data p.2.data)

/-- Zero-padded bundle index (`f"{i:03d}"`). -/
def pad3 (n : Nat) : String :=
  if n < 10 then "00" ++ toString n else if n < 100 then "0" ++ toString n else toString n

/-- One bundle record of the `/bundles/{run_id}` response. -/
structure Bundle where
  bundle_id : String
  pattern_id : String
  app_ids : List String
  apps : List App
  avg_risk : ℚ
  coupling : String
  affinity_score : Nat
  bundle_reason : String

/-- Assemble the bundle record of one component (1-based index `i`). -/
def mkBundle (apps : List App) (aff : String × String → Nat) (i : Nat) (comp : List String) : Bundle :=
  let members := comp.map (appLookup apps)
  let bAff := ((internalPairs comp).map aff).sum
  let coupling := if max 4 (comp.length * 2) ≤ bAff then "tight" else "loose"
  { bundle_id := "BUNDLE-" ++ pad3 i
    pattern_id := domPattern members
    app_ids := members.map App.id
    apps := members
    avg_risk := round2 (((members.map App.risk_score).sum) / (max members.length 1 : ℚ))
    coupling := coupling
    affinity_score := bAff
    bundle_reason := if coupling = "tight" then "Tightly coupled via shared DB/integration"
      else "Loosely coupled; can migrate in silos" }

/-- `for i, comp in enumerate(components, start=1)`: assemble the bundle
records, numbering from `i`. -/
def mkBundles (apps : List App) (aff : String × String → Nat) : Nat → List (List String) → List Bundle
  | _, [] => []
  | i, c :: cs => mkBundle apps aff i c :: mkBundles apps aff (i + 1) cs

/-- `bundles` (assessment.py): the bundle list of one scan run. -/
def bundles (loads : String → Option PyVal) (apps : List App) : List Bundle :=
  if apps.isEmpty then []
  else
    let st := buildBState loads apps
    mkBundles apps st.aff 1 (sortDesc (componentsOf st.nbrs (apps.map App.id)))

/-! ## Concrete inputs used by witnesses and counterexamples -/

/-- A `json.loads` model that fails on every input. -/
def loadsNone : String → Option PyVal := fun _ => Option.none

/-- A `json.loads` model that parses every input to the empty object. -/
def loadsEmptyObj : String → Option PyVal := fun _ => some (.dict [])

/-- Findings `[{"type":"app_to_db_integration","datastores":["MySQL","none"],"coupling":"Tight"}]`. -/
def exDbMySQL : PyVal :=
  .list [.dict [("type", .str ("app_to_db_integration")),
    ("datastores", .list [.str ("MySQL"), .str ("none")]), ("coupling", .str ("Tight"))]]

/-- Findings `[{"type":"app_to_db_integration","datastores":7}]`: Python
iterates `7` and raises `TypeError`. -/
def exDbBadDatastores : PyVal :=
  .list [.dict [("type", .str ("app_to_db_integration")), ("datastores", .int 7)]]

/-- Findings `[{"type":"unknown"}]`. -/
def exUnknown : PyVal := .list [.dict [("type", .str ("unknown"))]]

/-- Findings `{"type":"metadata","tags":"not-a-list"}` (a single record). -/
def exMetaBadTags : PyVal := .dict [("type", .str ("metadata")), ("tags", .str ("not-a-list"))]

/-- Findings with one tight db link to `"postgres"` and no app links. -/
def pgTight : PyVal :=
  .list [.dict [("type", .str ("app_to_db_integration")),
    ("datastores", .list [.str ("postgres")]), ("coupling", .str ("tight"))]]

/-- Application A of the shared-datastore scenario. -/
def appA : App := ⟨"A1", "alpha", "P1", "GCE", 5, pgTight⟩

/-- Application B of the shared-datastore scenario. -/
def appB : App := ⟨"B1", "beta", "P1", "GCE", 5, pgTight⟩

/-- Findings with one tight app link to the external target `"extsvc"`. -/
def extTight : PyVal :=
  .list [.dict [("type", .str ("app_to_app_integration")),
    ("targets", .list [.str ("extsvc")]), ("coupling", .str ("tight"))]]

/-- Application with a tight link to an out-of-run target. -/
def appE : App := ⟨"E1", "edge", "P1", "", 5, extTight⟩

/-- Instruction mapping giving category P1 the keywords `alpha,beta`. -/
def instrOverrideP1 : String → String := fun p => if p = "P1" then "alpha,beta" else ""

/-- Instruction mapping giving category P4 the keywords `kubernetes,kubectl`. -/
def instrOverrideP4 : String → String := fun p => if p = "P4" then "kubernetes,kubectl" else ""

/-! # Theorems -/

/-! ## Generic helpers -/

/-- Preservation of a predicate along `List.foldl`. -/
theorem foldlPres {α σ : Type} (P : σ → Prop) (f : σ → α → σ) :
    ∀ (l : List α) (s : σ), (∀ s a, a ∈ l → P s → P (f s a)) → P s → P (l.foldl f s) := by
  intro l
  induction l with
  | nil => intro s _ h; exact h
  | cons x xs ih =>
      intro s hpres h
      exact ih (f s x) (fun s a ha => hpres s a (List.mem_cons_of_mem _ ha)) (hpres s x (List.mem_cons_self _ _) h)

/-- A predicate established by some element of the list and preserved
afterwards holds of the `List.foldl` result. -/
theorem foldlEstablish {α σ : Type} (P : σ → Prop) (f : σ → α → σ) :
    ∀ (l : List α) (s : σ) (a₀ : α), a₀ ∈ l → (∀ s, P (f s a₀)) →
      (∀ s a, a ∈ l → P s → P (f s a)) → P (l.foldl f s) := by
  intro l
  induction l with
  | nil => intro s a₀ ha; exact absurd ha (List.not_mem_nil a₀)
  | cons x xs ih =>
      intro s a₀ ha hstep hpres
      rcases List.mem_cons.1 ha with h | h
      · subst h
        exact foldlPres P f xs (f s a₀) (fun s a ha' => hpres s a (List.mem_cons_of_mem _ ha')) (hstep s)
      · exact ih (f s x) a₀ h hstep (fun s a ha' => hpres s a (List.mem_cons_of_mem _ ha'))

/-- ASCII lowercase is idempotent on characters in range `97..122`. -/
theorem charToLowerValid (m : Nat) (h1 : 97 ≤ m) (h2 : m ≤ 122) :
    Char.toLower (Char.ofNat m) = Char.ofNat m := by
  interval_cases m <;> decide

/-- `Char.toLower` is idempotent. -/
theorem charToLowerIdem (c : Char) : Char.toLower (Char.toLower c) = Char.toLower c := by
  by_cases h : c.toNat ≥ 65 ∧ c.toNat ≤ 90
  · have h1 : Char.toLower c = Char.ofNat (c.toNat + 32) := by
      simp [Char.toLower, h]
    rw [h1]
    exact charToLowerValid _ (by omega) (by omega)
  · have h1 : Char.toLower c = c := by
      simp [Char.toLower, h]
    rw [h1]
    exact h1

/-- Python `.lower()` is idempotent. -/
theorem pyLowerIdem (s : String) : pyLower (pyLower s) = pyLower s := by
  simp [pyLower, List.map_map, Function.comp_def, charToLowerIdem]

/-! ## Integration Model Extractor lemmas -/

/-- The db links of the extractor fold are the concatenated per-record
contributions. -/
theorem foldl_extractItem_db : ∀ (items : List PyVal) (st : IModel),
    (items.foldl extractItem st).db_links = st.db_links ++ (items.map itemDbLinks).flatten := by
  intro items
  induction items with
  | nil => intro st; simp
  | cons x xs ih => intro st; simp [extractItem, ih, List.append_assoc]

/-- Every db link emitted for a single record comes from `dbLinksOf`. -/
theorem itemDbLinks_sub (item : PyVal) (l : DbLink) (h : l ∈ itemDbLinks item) :
    ∃ kvs, l ∈ dbLinksOf kvs := by
  cases item with
  | dict kvs =>
      simp only [itemDbLinks] at h
      split at h
      · exact absurd h (List.not_mem_nil l)
      · split at h
        · exact absurd h (List.not_mem_nil l)
        · split at h
          · exact ⟨kvs, h⟩
          · exact absurd h (List.not_mem_nil l)
  | none => exact absurd h (List.not_mem_nil l)
  | bool b => exact absurd h (List.not_mem_nil l)
  | int n => exact absurd h (List.not_mem_nil l)
  | str s => exact absurd h (List.not_mem_nil l)
  | list xs => exact absurd h (List.not_mem_nil l)

/-- Shape of every `dbLinksOf` entry: the datastore is a lowercased
rendering distinct from `""` and `"none"`, and the coupling is a
lowercased rendering (of the record coupling, defaulting to "loose"). -/
theorem dbLinksOf_shape (kvs : List (String × PyVal)) (l : DbLink) (h : l ∈ dbLinksOf kvs) :
    (∃ t, l.datastore = pyLower t) ∧ l.datastore ≠ "none" ∧
      l.coupling = pyLower (pyStr (pyOr (pyGet kvs ("coupling") PyVal.none) (PyVal.str ("loose")))) := by
  simp only [dbLinksOf] at h
  split at h
  · next ds heq =>
      simp only [List.mem_filterMap, List.mem_map] at h
      obtain ⟨s, ⟨d, hd, rfl⟩, hsome⟩ := h
      split at hsome
      · next hcond =>
          have hpair : l.datastore = pyLower (pyStr d) ∧
              l.coupling = pyLower (pyStr (pyOr (pyGet kvs ("coupling") PyVal.none) (PyVal.str ("loose")))) := by
            cases l
            injection hsome with h'
            cases h'
            exact ⟨rfl, rfl⟩
          refine ⟨⟨pyStr d, hpair.1⟩, ?_, hpair.2⟩
          rw [hpair.1]
          exact hcond.2
      · exact absurd hsome (by simp)
  · exact absurd h (List.not_mem_nil l)

/-- Every db link the extractor ever emits is case-normalized and never
the sentinel `"none"`. -/
theorem extract_db_link_shape (loads : String → Option PyVal) (f : PyVal) (l : DbLink)
    (h : l ∈ (extractIntegrationModel loads f).db_links) :
    pyLower l.datastore = l.datastore ∧ l.datastore ≠ "none" ∧ pyLower l.coupling = l.coupling := by
  have hdb : l ∈ ((parseFindings loads f).map itemDbLinks).flatten := by
    have := foldl_extractItem_db (parseFindings loads f) ⟨[], [], []⟩
    simp only [extractIntegrationModel] at h
    rw [this] at h
    simpa using h
  simp only [List.mem_flatten, List.mem_map] at hdb
  obtain ⟨dl, ⟨item, _, rfl⟩, hl⟩ := hdb
  obtain ⟨kvs, hkvs⟩ := itemDbLinks_sub item l hl
  obtain ⟨⟨t, hds⟩, hnone, hcoup⟩ := dbLinksOf_shape kvs l hkvs
  refine ⟨?_, hnone, ?_⟩
  · rw [hds, pyLowerIdem]
  · rw [hcoup, pyLowerIdem]

/-! ## Claim C5 -/

/-- C5: every db_link emitted by the integration model extractor has a
lowercased datastore name and a lowercased coupling, no emitted db_link
has datastore `"none"` (lowercasing first makes this cover every letter
case of the source value), a record without a truthy coupling yields
coupling `"loose"`, and the concrete example
`[{"type":"app_to_db_integration","datastores":["MySQL","none"],"coupling":"Tight"}]`
yields exactly `[{"datastore":"mysql","coupling":"tight"}]`. -/
theorem C5_db_link_normalization :
    (∀ (loads : String → Option PyVal) (f : PyVal) (l : DbLink),
      l ∈ (extractIntegrationModel loads f).db_links →
      pyLower l.datastore = l.datastore ∧ l.datastore ≠ "none" ∧ pyLower l.coupling = l.coupling) ∧
    (∀ (kvs : List (String × PyVal)) (l : DbLink),
      pyTruthy (pyGet kvs ("coupling") PyVal.none) = false → l ∈ dbLinksOf kvs →
      l.coupling = "loose") ∧
    (∀ loads : String → Option PyVal,
      (extractIntegrationModel loads exDbMySQL).db_links = [⟨"mysql", "tight"⟩]) := by
  refine ⟨extract_db_link_shape, ?_, ?_⟩
  · intro kvs l hfalse hl
    have h := (dbLinksOf_shape kvs l hl).2.2
    rw [h]
    unfold pyOr
    rw [hfalse]
    rfl
  · intro loads
    rfl

/-- Witness for C5 at the concrete example input. -/
theorem C5_witness :
    pyLower ("mysql") = "mysql" ∧ ("mysql" : String) ≠ "none" ∧ pyLower ("tight") = "tight" := by
  have h := C5_db_link_normalization.1 loadsNone exDbMySQL ⟨"mysql", "tight"⟩ (by decide)
  exact h

/-! ## Claim C4 (corrected) -/

/-- C4 counterexample: the extractor is *not* total.  On the findings
value `[{"type":"app_to_db_integration","datastores":7}]` Python executes
`for d in item.get("datastores") or []` with the non-iterable `7` and
raises `TypeError`; `extractCheck` (the embedded no-raise check, `false`
exactly when some record iterates a truthy non-iterable
`targets`/`datastores` value) flags the input. -/
theorem C4_counterexample : extractCheck loadsNone exDbBadDatastores = false := by decide

/-- C4 amended: the extractor never raises provided every
`app_to_app_integration` record reaching the `targets` fallback has an
absent, falsy or iterable `targets` value and every
`app_to_db_integration` record has an absent, falsy or iterable
`datastores` value (`extractCheck = true`); in particular, on each input
of the spec's malformed family — `None`, an unparsable string, a string
parsing to `{}`, `[]`, `[{"type":"unknown"}]`, and
`{"type":"metadata","tags":"not-a-list"}` — it passes the check and
degrades to the empty model. -/
theorem C4_extractor_totality :
    (∀ loads : String → Option PyVal,
      extractIntegrationModel loads PyVal.none = ⟨[], [], []⟩ ∧
      extractCheck loads PyVal.none = true) ∧
    (∀ (loads : String → Option PyVal) (s : String), loads s = Option.none →
      extractIntegrationModel loads (.str s) = ⟨[], [], []⟩ ∧
      extractCheck loads (.str s) = true) ∧
    (∀ (loads : String → Option PyVal) (s : String), loads s = some (.dict []) →
      extractIntegrationModel loads (.str s) = ⟨[], [], []⟩ ∧
      extractCheck loads (.str s) = true) ∧
    (∀ loads : String → Option PyVal,
      extractIntegrationModel loads (.list []) = ⟨[], [], []⟩ ∧
      extractCheck loads (.list []) = true) ∧
    (∀ loads : String → Option PyVal,
      extractIntegrationModel loads exUnknown = ⟨[], [], []⟩ ∧
      extractCheck loads exUnknown = true) ∧
    (∀ loads : String → Option PyVal,
      extractIntegrationModel loads exMetaBadTags = ⟨[], [], []⟩ ∧
      extractCheck loads exMetaBadTags = true) := by
  refine ⟨fun loads => ⟨rfl, rfl⟩, ?_, ?_, fun loads => ⟨rfl, rfl⟩,
    fun loads => ⟨rfl, rfl⟩, fun loads => ⟨rfl, rfl⟩⟩
  · intro loads s h
    constructor
    · simp [extractIntegrationModel, parseFindings, h]
      rfl
    · simp [extractCheck, parseFindings, h]
  · intro loads s h
    constructor
    · simp [extractIntegrationModel, parseFindings, h]
      exact ⟨rfl, rfl, rfl⟩
    · simp [extractCheck, parseFindings, h]
      rfl

/-- Witness for C4 at the concrete string inputs `"not json"` and `"{}"`. -/
theorem C4_witness :
    extractIntegrationModel loadsNone (.str ("not json")) = ⟨[], [], []⟩ ∧
    extractIntegrationModel loadsEmptyObj (.str ("\x7b\x7d")) = ⟨[], [], []⟩ :=
  ⟨(C4_extractor_totality.2.1 loadsNone ("not json") rfl).1,
   (C4_extractor_totality.2.2.1 loadsEmptyObj ("\x7b\x7d") rfl).1⟩

/-! ## Claim C9 (corrected) -/

/-- C9 counterexample: with initial pattern `P1`, instructions giving P1
the keywords `alpha,beta`, and content containing both, the best category
is `P1` with 2 hits — so the claim's "changes the pattern iff the
max-hit category has count ≥ 2" fails: the count is ≥ 2, yet the
returned pattern equals the original (nothing changes). -/
theorem C9_counterexample :
    bestPid (fun pid => kwHits ("alpha beta") (instrOverrideP1 pid)) = "P1" ∧
    2 ≤ kwHits ("alpha beta")
      (instrOverrideP1 (bestPid (fun pid => kwHits ("alpha beta") (instrOverrideP1 pid)))) ∧
    applyPatternInstructions ("P1") ("alpha beta") instrOverrideP1 = "P1" := by
  decide

/-- C9 amended: the resolver returns the category with the highest
keyword-hit count iff that count is at least 2 (so the pattern only
*changes* when moreover that category differs from the initial one), and
otherwise retains the original classification.  Determinism is inherent:
the resolver is a pure function of its three inputs. -/
theorem C9_override_resolution (pat content : String) (instr : String → String) :
    (applyPatternInstructions pat content instr ≠ pat →
      2 ≤ kwHits content (instr (bestPid (fun pid => kwHits content (instr pid)))) ∧
      applyPatternInstructions pat content instr =
        bestPid (fun pid => kwHits content (instr pid))) ∧
    (kwHits content (instr (bestPid (fun pid => kwHits content (instr pid)))) < 2 →
      applyPatternInstructions pat content instr = pat) ∧
    (2 ≤ kwHits content (instr (bestPid (fun pid => kwHits content (instr pid)))) →
      applyPatternInstructions pat content instr =
        bestPid (fun pid => kwHits content (instr pid))) := by
  unfold applyPatternInstructions
  by_cases h : 2 ≤ kwHits content (instr (bestPid (fun pid => kwHits content (instr pid))))
  · refine ⟨fun _ => ⟨h, ?_⟩, fun hlt => absurd h (by omega), fun _ => ?_⟩ <;> simp [h]
  · refine ⟨fun hne => absurd ?_ hne, fun _ => ?_, fun h2 => absurd h2 h⟩ <;> simp [h]

/-- Witness for C9 on an input where the override fires. -/
theorem C9_witness :
    2 ≤ kwHits ("kubernetes kubectl")
      (instrOverrideP4 (bestPid (fun pid => kwHits ("kubernetes kubectl") (instrOverrideP4 pid)))) ∧
    applyPatternInstructions ("P1") ("kubernetes kubectl") instrOverrideP4 =
      bestPid (fun pid => kwHits ("kubernetes kubectl") (instrOverrideP4 pid)) :=
  (C9_override_resolution ("P1") ("kubernetes kubectl") instrOverrideP4).1 (by decide)

/-! ## Classifier lemmas -/

/-- Signal weights are nonnegative. -/
theorem sigW_nonneg (s : Signal) : 0 ≤ sigW s := by
  unfold sigW
  positivity

/-- The score of `pid` after the signal loop is the capped fold of the
weights of the matching signals targeting `pid`, in declaration order. -/
theorem foldl_scoreStep_scores (blob : List Char) : ∀ (sigs : List Signal) (acc : ScoreAcc) (pid : String),
    ((sigs.foldl (scoreStep blob) acc).scores) pid =
      ((sigs.filter (fun s => decide (s.pid = pid) && reSearch s.re blob)).map sigW).foldl
        capAdd (acc.scores pid) := by
  intro sigs
  induction sigs with
  | nil => intro acc pid; rfl
  | cons x xs ih =>
      intro acc pid
      by_cases hm : reSearch x.re blob = true
      · by_cases hp : x.pid = pid
        · subst hp
          simp [scoreStep, hm, ih]
        · have hp' : ¬(pid = x.pid) := fun h => hp h.symm
          simp [scoreStep, hm, hp, hp', ih]
      · simp [scoreStep, hm, ih]

/-- The fired list after the signal loop is the matching signals' ids in
declaration order. -/
theorem foldl_scoreStep_hits (blob : List Char) : ∀ (sigs : List Signal) (acc : ScoreAcc),
    (sigs.foldl (scoreStep blob) acc).hits =
      acc.hits ++ (sigs.filter (fun s => reSearch s.re blob)).map sigId := by
  intro sigs
  induction sigs with
  | nil => intro acc; simp
  | cons x xs ih =>
      intro acc
      by_cases hm : reSearch x.re blob = true
      · simp [scoreStep, hm, ih]
      · simp [scoreStep, hm, ih]

/-- Iterated capped addition equals the capped total sum (for
nonnegative weights and a start below the cap). -/
theorem capAdd_foldl (ws : List ℚ) : ∀ a : ℚ, (∀ w ∈ ws, 0 ≤ w) → 0 ≤ a → a ≤ 1 →
    ws.foldl capAdd a = min 1 (a + ws.sum) := by
  induction ws with
  | nil =>
      intro a _ _ ha1
      simp [min_eq_right ha1]
  | cons w ws ih =>
      intro a hw h0 h1
      have hw0 : 0 ≤ w := hw w (by simp)
      have hws : ∀ x ∈ ws, 0 ≤ x := fun x hx => hw x (by simp [hx])
      have hsum : 0 ≤ ws.sum := List.sum_nonneg hws
      by_cases hc : a + w ≤ 1
      · have hcap : capAdd a w = a + w := min_eq_right hc
        rw [List.foldl_cons, hcap, ih (a + w) hws (by positivity) hc, List.sum_cons]
        ring_nf
      · have hcap : capAdd a w = 1 := min_eq_left (by linarith)
        rw [List.foldl_cons, hcap, ih 1 hws zero_le_one le_rfl, List.sum_cons]
        rw [min_eq_left (by linarith), min_eq_left (by linarith)]

/-- The run score of a category, in closed form: capped sum of matching
weights. -/
theorem runSignals_scores (blob : List Char) (pid : String) :
    (runSignals blob).scores pid =
      min 1 (((SIGNALS.filter (fun s => decide (s.pid = pid) && reSearch s.re blob)).map sigW).sum) := by
  unfold runSignals
  rw [foldl_scoreStep_scores]
  have h := capAdd_foldl ((SIGNALS.filter (fun s => decide (s.pid = pid) && reSearch s.re blob)).map sigW)
    0 ?_ le_rfl zero_le_one
  · simpa using h
  · intro w hw
    obtain ⟨s, _, rfl⟩ := List.mem_map.1 hw
    exact sigW_nonneg s

/-- Run scores are nonnegative. -/
theorem runSignals_scores_nonneg (blob : List Char) (pid : String) :
    0 ≤ (runSignals blob).scores pid := by
  rw [runSignals_scores]
  refine le_min zero_le_one (List.sum_nonneg ?_)
  intro w hw
  obtain ⟨s, _, rfl⟩ := List.mem_map.1 hw
  exact sigW_nonneg s

/-- The summed weights are exact hundredths. -/
theorem sigW_sum_mul (sigs : List Signal) :
    ((sigs.map sigW).sum) * 100 = ((sigs.map Signal.wc).sum : ℕ) := by
  induction sigs with
  | nil => simp
  | cons x xs ih =>
      simp only [List.map_cons, List.sum_cons, add_mul, ih]
      have : sigW x * 100 = (x.wc : ℚ) := by
        unfold sigW
        field_simp
      rw [this]
      push_cast
      ring

/-- `round(q, 2)` is the identity on exact hundredths. -/
theorem round2_eq_self {q : ℚ} (n : ℤ) (h : q * 100 = (n : ℚ)) : round2 q = q := by
  unfold round2
  rw [h, round_intCast]
  have : q = (n : ℚ) / 100 := by
    field_simp at h ⊢
    linarith
  rw [this]

/-- `round` is monotone on ℚ. -/
theorem round_mono' {a b : ℚ} (h : a ≤ b) : round a ≤ round b := by
  rw [round_eq, round_eq]
  exact Int.floor_le_floor (by linarith)

/-- `round(q, 2)` maps `[0, 0.99]` into itself. -/
theorem round2_range {q : ℚ} (h0 : 0 ≤ q) (h1 : q ≤ 99/100) :
    0 ≤ round2 q ∧ round2 q ≤ 99/100 := by
  unfold round2
  have hl : (0:ℤ) ≤ round (q * 100) := by
    have h := round_mono' (show (0:ℚ) ≤ q * 100 by positivity)
    simpa using h
  have hu : round (q * 100) ≤ 99 := by
    have h := round_mono' (show q * 100 ≤ ((99:ℤ):ℚ) by push_cast; linarith)
    rwa [round_intCast] at h
  constructor
  · have : (0:ℚ) ≤ ((round (q * 100) : ℤ) : ℚ) := by exact_mod_cast hl
    positivity
  · have : ((round (q * 100) : ℤ) : ℚ) ≤ 99 := by exact_mod_cast hu
    linarith

/-- `round(q, 1)` maps `[4, 10]` into itself. -/
theorem round1_range {q : ℚ} (h0 : 4 ≤ q) (h1 : q ≤ 10) :
    4 ≤ round1 q ∧ round1 q ≤ 10 := by
  unfold round1
  have hl : (40:ℤ) ≤ round (q * 10) := by
    have h := round_mono' (show ((40:ℤ):ℚ) ≤ q * 10 by push_cast; linarith)
    rwa [round_intCast] at h
  have hu : round (q * 10) ≤ 100 := by
    have h := round_mono' (show q * 10 ≤ ((100:ℤ):ℚ) by push_cast; linarith)
    rwa [round_intCast] at h
  constructor
  · have : (40:ℚ) ≤ ((round (q * 10) : ℤ) : ℚ) := by exact_mod_cast hl
    linarith
  · have : ((round (q * 10) : ℤ) : ℚ) ≤ 100 := by exact_mod_cast hu
    linarith

/-- The raw heuristic risk is between 4 and 10. -/
theorem calcRisk_bounds (files : List String) (content : String) (pid : String) :
    4 ≤ calcRiskVal files content pid ∧ calcRiskVal files content pid ≤ 10 := by
  unfold calcRiskVal
  refine ⟨le_min (by norm_num) ?_, min_le_left _ _⟩
  split_ifs <;> norm_num

/-- Definitional reading of the classifier's pattern choice. -/
theorem classify_pattern_def (files : List String) (c : String) :
    (classifyRepo files c).pattern_id =
      (if (runSignals (classifierBlob files c)).scores (argmaxPid (runSignals (classifierBlob files c)).scores) < (1/10:ℚ)
       then "P1" else argmaxPid (runSignals (classifierBlob files c)).scores) := rfl

/-- Definitional reading of the classifier's confidence. -/
theorem classify_conf_def (files : List String) (c : String) :
    (classifyRepo files c).confidence =
      round2 (min (99/100)
        (if (runSignals (classifierBlob files c)).scores (argmaxPid (runSignals (classifierBlob files c)).scores) < (1/10:ℚ)
         then (3/20 : ℚ) else (runSignals (classifierBlob files c)).scores (argmaxPid (runSignals (classifierBlob files c)).scores))) := rfl

/-- Definitional reading of the classifier's risk score. -/
theorem classify_risk_def (files : List String) (c : String) :
    (classifyRepo files c).risk_score =
      round1 (calcRiskVal files c
        (if (runSignals (classifierBlob files c)).scores (argmaxPid (runSignals (classifierBlob files c)).scores) < (1/10:ℚ)
         then "P1" else argmaxPid (runSignals (classifierBlob files c)).scores)) := rfl

/-- Definitional reading of the classifier's score map. -/
theorem classify_scores_def (files : List String) (c : String) (pid : String) :
    (classifyRepo files c).scores pid = round2 ((runSignals (classifierBlob files c)).scores pid) := rfl

/-- Definitional reading of the classifier's fired-signal list. -/
theorem classify_hits_def (files : List String) (c : String) :
    (classifyRepo files c).signals_hit = (runSignals (classifierBlob files c)).hits.take 20 := rfl

/-! ## Claim C6 -/

/-- C6: when no signal pattern matches the combined blob, the classifier
returns pattern `P1` with confidence exactly 0.15, whatever the file list
and content were. -/
theorem C6_no_signal_fallback (files : List String) (contentSample : String)
    (h : ∀ s ∈ SIGNALS, reSearch s.re (classifierBlob files contentSample) = false) :
    (classifyRepo files contentSample).pattern_id = "P1" ∧
    (classifyRepo files contentSample).confidence = 3/20 := by
  have hsc : ∀ pid, (runSignals (classifierBlob files contentSample)).scores pid = 0 := by
    intro pid
    rw [runSignals_scores]
    have hfil : SIGNALS.filter
        (fun s => decide (s.pid = pid) && reSearch s.re (classifierBlob files contentSample)) = [] := by
      rw [List.filter_eq_nil_iff]
      intro s hs
      simp [h s hs]
    rw [hfil]
    simp
  have hcond : (runSignals (classifierBlob files contentSample)).scores
      (argmaxPid (runSignals (classifierBlob files contentSample)).scores) < (1/10:ℚ) := by
    rw [hsc]
    norm_num
  constructor
  · rw [classify_pattern_def, if_pos hcond]
  · rw [classify_conf_def, if_pos hcond, min_eq_right (by norm_num : (3/20:ℚ) ≤ 99/100)]
    exact round2_eq_self 15 (by norm_num)

/-- Witness for C6: empty file list, empty content. -/
theorem C6_witness :
    (classifyRepo [] ("")).pattern_id = "P1" ∧ (classifyRepo [] ("")).confidence = 3/20 :=
  C6_no_signal_fallback [] ("") (by decide)

/-! ## Claim C7 -/

/-- C7: for every input, confidence lies in `[0, 0.99]` and the risk
score lies in `[1, 10]`. -/
theorem C7_confidence_risk_ranges (files : List String) (contentSample : String) :
    0 ≤ (classifyRepo files contentSample).confidence ∧
    (classifyRepo files contentSample).confidence ≤ 99/100 ∧
    1 ≤ (classifyRepo files contentSample).risk_score ∧
    (classifyRepo files contentSample).risk_score ≤ 10 := by
  have hbs : (0:ℚ) ≤ (if (runSignals (classifierBlob files contentSample)).scores
      (argmaxPid (runSignals (classifierBlob files contentSample)).scores) < (1/10:ℚ)
      then (3/20 : ℚ) else (runSignals (classifierBlob files contentSample)).scores
        (argmaxPid (runSignals (classifierBlob files contentSample)).scores)) := by
    split
    · norm_num
    · exact runSignals_scores_nonneg _ _
  have hc := round2_range (le_min (by norm_num) hbs) (min_le_left _ _)
  have hr0 := calcRisk_bounds files contentSample
    (if (runSignals (classifierBlob files contentSample)).scores
      (argmaxPid (runSignals (classifierBlob files contentSample)).scores) < (1/10:ℚ)
     then "P1" else argmaxPid (runSignals (classifierBlob files contentSample)).scores)
  have hr := round1_range hr0.1 hr0.2
  rw [classify_conf_def, classify_risk_def]
  exact ⟨hc.1, hc.2, by linarith [hr.1], hr.2⟩

/-! ## Claim C8 -/

/-- C8: each category's published score is the sum of the weights of its
matching signals capped at 1.0 (0.0 when nothing matches, also for keys
outside the five categories), and the published fired-signal list is the
matching signals' identifiers in declaration order truncated to the
first 20. -/
theorem C8_scores_and_hits (files : List String) (contentSample : String) (pid : String) :
    (classifyRepo files contentSample).scores pid =
      min 1 (((SIGNALS.filter (fun s => decide (s.pid = pid) &&
        reSearch s.re (classifierBlob files contentSample))).map sigW).sum) ∧
    (classifyRepo files contentSample).signals_hit =
      (((SIGNALS.filter (fun s => reSearch s.re (classifierBlob files contentSample))).map sigId).take 20) := by
  constructor
  · rw [classify_scores_def, runSignals_scores]
    set sigs := SIGNALS.filter (fun s => decide (s.pid = pid) &&
      reSearch s.re (classifierBlob files contentSample)) with hsigs
    refine round2_eq_self (min 100 (((sigs.map Signal.wc).sum : ℕ) : ℤ)) ?_
    rw [min_mul_of_nonneg _ _ (by norm_num : (0:ℚ) ≤ 100), one_mul, sigW_sum_mul, Int.cast_min]
    norm_num
    have hcast : (Int.cast ∘ Nat.cast ∘ Signal.wc : Signal → ℚ) = (Nat.cast ∘ Signal.wc) := by
      funext s
      simp
    rw [hcast]
  · rw [classify_hits_def]
    unfold runSignals
    rw [foldl_scoreStep_hits]
    simp

/-! ## Claim C10 (corrected) -/

/-- `add_node` never touches the edge list. -/
theorem addNode_edges (st : GState) (n : GNode) : (addNode st n).edges = st.edges := by
  unfold addNode
  split <;> rfl

/-- One app-link step's new edge has the link's provenance shape; old
edges keep theirs. -/
theorem graphAppLink_sound (loads : String → Option PyVal) (apps : List App) (app : App)
    (happ : app ∈ apps) (st : GState) (l : AppLink)
    (hl : l ∈ (extractIntegrationModel loads app.findings).app_links)
    (h : ∀ e ∈ st.edges, e.label = "calls" → callsEdgeFrom loads apps e) :
    ∀ e ∈ (graphAppLink (apps.map App.id) app.id st l).edges, e.label = "calls" →
      callsEdgeFrom loads apps e := by
  intro e he hlab
  unfold graphAppLink at he
  split at he
  · next hin =>
      rcases List.mem_append.1 he with h1 | h1
      · exact h e h1 hlab
      · have he' : e = ⟨app.id, l.target, "app", "calls", some l.coupling,
            some (if l.coupling = "tight" then 3 else 1)⟩ := by simpa using h1
        subst he'
        exact ⟨app, happ, l, hl, rfl, rfl, rfl, Or.inl ⟨hin, rfl, rfl⟩⟩
  · next hnin =>
      rcases List.mem_append.1 he with h1 | h1
      · rw [addNode_edges] at h1
        exact h e h1 hlab
      · have he' : e = ⟨app.id, "ext-" ++ l.target, "app", "calls", some l.coupling, some 1⟩ := by
          simpa using h1
        subst he'
        exact ⟨app, happ, l, hl, rfl, rfl, rfl, Or.inr ⟨hnin, rfl, rfl⟩⟩

/-- One db-link step adds no calls edge. -/
theorem graphDbLink_sound (loads : String → Option PyVal) (apps : List App)
    (appId : String) (st : GState) (d : DbLink)
    (h : ∀ e ∈ st.edges, e.label = "calls" → callsEdgeFrom loads apps e) :
    ∀ e ∈ (graphDbLink appId st d).edges, e.label = "calls" → callsEdgeFrom loads apps e := by
  intro e he
  unfold graphDbLink at he
  simp only [addNode_edges] at he
  rcases List.mem_append.1 he with h1 | h1
  · exact h e h1
  · have he' : e = ⟨appId, "db-" ++ d.datastore, "db", "reads/writes", some d.coupling,
        some (if d.coupling = "tight" then 4 else 2)⟩ := by simpa using h1
    subst he'
    intro hlab
    exact absurd (show ("reads/writes" : String) = "calls" from hlab) (by decide)

/-- The per-application step only adds calls edges with the link
provenance shape. -/
theorem graphApp_sound (loads : String → Option PyVal) (apps : List App) (st : GState)
    (app : App) (happ : app ∈ apps)
    (h : ∀ e ∈ st.edges, e.label = "calls" → callsEdgeFrom loads apps e) :
    ∀ e ∈ (graphApp loads (apps.map App.id) st app).edges, e.label = "calls" →
      callsEdgeFrom loads apps e := by
  unfold graphApp
  refine foldlPres (fun st : GState => ∀ e ∈ st.edges, e.label = "calls" → callsEdgeFrom loads apps e)
    _ _ _ (fun st d _ hst => graphDbLink_sound loads apps app.id st d hst) ?_
  refine foldlPres (fun st : GState => ∀ e ∈ st.edges, e.label = "calls" → callsEdgeFrom loads apps e)
    _ _ _ (fun st l hl hst => graphAppLink_sound loads apps app happ st l hl hst) ?_
  intro e he
  simp only [addNode_edges] at he
  rcases List.mem_append.1 he with h1 | h1
  · exact h e h1
  · have he' : e = ⟨app.id, "gcp-" ++ app.id, "api", "migrates_to", Option.none, Option.none⟩ := by
      simpa using h1
    subst he'
    intro hlab
    exact absurd (show ("migrates_to" : String) = "calls" from hlab) (by decide)

/-- The app-link step never removes an edge. -/
theorem graphAppLink_edges_mono (ids : List String) (appId : String) (st : GState) (l : AppLink)
    (e : GEdge) (he : e ∈ st.edges) : e ∈ (graphAppLink ids appId st l).edges := by
  unfold graphAppLink
  split
  · exact List.mem_append.2 (Or.inl he)
  · simp only [addNode_edges]
    exact List.mem_append.2 (Or.inl he)

/-- The db-link step never removes an edge. -/
theorem graphDbLink_edges_mono (appId : String) (st : GState) (d : DbLink)
    (e : GEdge) (he : e ∈ st.edges) : e ∈ (graphDbLink appId st d).edges := by
  unfold graphDbLink
  simp only [addNode_edges]
  exact List.mem_append.2 (Or.inl he)

/-- The per-application step never removes an edge. -/
theorem graphApp_edges_mono (loads : String → Option PyVal) (ids : List String) (st : GState)
    (app : App) (e : GEdge) (he : e ∈ st.edges) : e ∈ (graphApp loads ids st app).edges := by
  unfold graphApp
  refine foldlPres (fun st' : GState => e ∈ st'.edges) _ _ _
    (fun s d _ hs => graphDbLink_edges_mono app.id s d e hs) ?_
  refine foldlPres (fun st' : GState => e ∈ st'.edges) _ _ _
    (fun s l _ hs => graphAppLink_edges_mono ids app.id s l e hs) ?_
  simp only [addNode_edges]
  exact List.mem_append.2 (Or.inl he)

/-- Processing an application emits, for each of its app links, the
calls edge of the branch its target selects: in-run targets get the
3-if-tight-else-1 edge, out-of-run targets get the weight-1 `ext-`
edge. -/
theorem graphApp_link_complete (loads : String → Option PyVal) (apps : List App) (app : App)
    (st : GState) (l : AppLink)
    (hl : l ∈ (extractIntegrationModel loads app.findings).app_links) :
    (l.target ∈ apps.map App.id →
      (⟨app.id, l.target, "app", "calls", some l.coupling,
        some (if l.coupling = "tight" then 3 else 1)⟩ : GEdge) ∈
        (graphApp loads (apps.map App.id) st app).edges) ∧
    (l.target ∉ apps.map App.id →
      (⟨app.id, "ext-" ++ l.target, "app", "calls", some l.coupling, some 1⟩ : GEdge) ∈
        (graphApp loads (apps.map App.id) st app).edges) := by
  constructor
  · intro hin
    unfold graphApp
    refine foldlPres (fun st' : GState =>
        (⟨app.id, l.target, "app", "calls", some l.coupling,
          some (if l.coupling = "tight" then 3 else 1)⟩ : GEdge) ∈ st'.edges) _ _ _
      (fun s d _ hs => graphDbLink_edges_mono app.id s d _ hs) ?_
    refine foldlEstablish (fun st' : GState =>
        (⟨app.id, l.target, "app", "calls", some l.coupling,
          some (if l.coupling = "tight" then 3 else 1)⟩ : GEdge) ∈ st'.edges) _ _ _ l hl ?_
      (fun s a _ hs => graphAppLink_edges_mono (apps.map App.id) app.id s a _ hs)
    intro s
    unfold graphAppLink
    rw [if_pos hin]
    exact List.mem_append.2 (Or.inr (List.mem_singleton.2 rfl))
  · intro hnin
    unfold graphApp
    refine foldlPres (fun st' : GState =>
        (⟨app.id, "ext-" ++ l.target, "app", "calls", some l.coupling, some 1⟩ : GEdge) ∈ st'.edges)
      _ _ _ (fun s d _ hs => graphDbLink_edges_mono app.id s d _ hs) ?_
    refine foldlEstablish (fun st' : GState =>
        (⟨app.id, "ext-" ++ l.target, "app", "calls", some l.coupling, some 1⟩ : GEdge) ∈ st'.edges)
      _ _ _ l hl ?_ (fun s a _ hs => graphAppLink_edges_mono (apps.map App.id) app.id s a _ hs)
    intro s
    unfold graphAppLink
    rw [if_neg hnin]
    simp only [addNode_edges]
    exact List.mem_append.2 (Or.inr (List.mem_singleton.2 rfl))

/-- C10 amended: every `calls` edge of the dependency graph comes from
one app link of one in-run application and carries that link's coupling,
with weight 3 if the link is tight and its target is an in-run
application, weight 1 otherwise (tight links to external targets
included); and conversely every app link produces exactly the calls edge
of its branch — in particular a tight in-run link always yields its
weight-3 edge. -/
theorem C10_calls_edge_weights (loads : String → Option PyVal) (apps : List App) :
    (∀ e ∈ (dependencyGraph loads apps).edges, e.label = "calls" →
      callsEdgeFrom loads apps e) ∧
    (∀ app ∈ apps, ∀ l ∈ (extractIntegrationModel loads app.findings).app_links,
      (l.target ∈ apps.map App.id →
        (⟨app.id, l.target, "app", "calls", some l.coupling,
          some (if l.coupling = "tight" then 3 else 1)⟩ : GEdge) ∈
          (dependencyGraph loads apps).edges) ∧
      (l.target ∉ apps.map App.id →
        (⟨app.id, "ext-" ++ l.target, "app", "calls", some l.coupling, some 1⟩ : GEdge) ∈
          (dependencyGraph loads apps).edges)) := by
  constructor
  · unfold dependencyGraph
    refine foldlPres (fun st : GState => ∀ e ∈ st.edges, e.label = "calls" →
        callsEdgeFrom loads apps e) _ _ _
      (fun st a ha hst => graphApp_sound loads apps st a ha hst) ?_
    intro e he
    exact absurd he (List.not_mem_nil e)
  · intro app happ l hl
    constructor
    · intro hin
      unfold dependencyGraph
      refine foldlEstablish (fun st : GState =>
          (⟨app.id, l.target, "app", "calls", some l.coupling,
            some (if l.coupling = "tight" then 3 else 1)⟩ : GEdge) ∈ st.edges)
        (graphApp loads (apps.map App.id)) apps _ app happ ?_
        (fun s a _ hs => graphApp_edges_mono loads (apps.map App.id) s a _ hs)
      intro s
      exact (graphApp_link_complete loads apps app s l hl).1 hin
    · intro hnin
      unfold dependencyGraph
      refine foldlEstablish (fun st : GState =>
          (⟨app.id, "ext-" ++ l.target, "app", "calls", some l.coupling, some 1⟩ : GEdge) ∈ st.edges)
        (graphApp loads (apps.map App.id)) apps _ app happ ?_
        (fun s a _ hs => graphApp_edges_mono loads (apps.map App.id) s a _ hs)
      intro s
      exact (graphApp_link_complete loads apps app s l hl).2 hnin

/-- C10 counterexample: the claim as stated — weight 3 if tight else 1
for *every* calls edge, external targets included — fails.  One app with
a tight app link to the out-of-run target `"extsvc"` produces a calls
edge with coupling `"tight"` and weight 1 (the external branch hardcodes
weight 1). -/
theorem C10_counterexample :
    ¬ (∀ e ∈ (dependencyGraph loadsNone [appE]).edges, e.label = "calls" →
        e.weight = some (if e.coupling = some ("tight") then 3 else 1)) := by
  decide

/-- Witness for C10: the completeness half places appE's external tight
link's weight-1 edge in the graph, and the soundness half gives that
concrete edge its link provenance. -/
theorem C10_witness :
    ((⟨"E1", "ext-" ++ "extsvc", "app", "calls", some ("tight"), some 1⟩ : GEdge)
        ∈ (dependencyGraph loadsNone [appE]).edges) ∧
    callsEdgeFrom loadsNone [appE]
      ((dependencyGraph loadsNone [appE]).edges.get ⟨1, by decide⟩) :=
  ⟨((C10_calls_edge_weights loadsNone [appE]).2 appE (List.mem_cons_self _ _)
      ⟨"extsvc", "tight"⟩ (by decide)).2 (by decide),
   (C10_calls_edge_weights loadsNone [appE]).1 _ (List.get_mem _ _ _) (by decide)⟩

/-! ## Connected-component (DFS) lemmas -/

/-- Characterization of the inner neighbour-pushing loop: it pushes the
fresh (unvisited) neighbours, marking them visited, and touches nothing
else. -/
theorem pushFresh_spec : ∀ (ns : List String) (v : Finset String) (s : List String),
    ∃ p : List String,
      (pushFresh v s ns).1 = v ∪ p.toFinset ∧
      (pushFresh v s ns).2 = p ++ s ∧
      p.Nodup ∧ (∀ x ∈ p, x ∈ ns) ∧ (∀ x ∈ p, x ∉ v) ∧
      (∀ y ∈ ns, y ∈ v ∨ y ∈ p) := by
  intro ns
  induction ns with
  | nil =>
      intro v s
      refine ⟨[], by simp [pushFresh], by simp [pushFresh], List.nodup_nil, by simp, by simp, by simp⟩
  | cons n ns ih =>
      intro v s
      by_cases hn : n ∈ v
      · obtain ⟨p, h1, h2, h3, h4, h5, h6⟩ := ih v s
        refine ⟨p, ?_, ?_, h3, ?_, h5, ?_⟩
        · simpa [pushFresh, hn] using h1
        · simpa [pushFresh, hn] using h2
        · exact fun x hx => List.mem_cons_of_mem n (h4 x hx)
        · intro y hy
          rcases List.mem_cons.1 hy with rfl | hy'
          · exact Or.inl hn
          · exact h6 y hy'
      · obtain ⟨p, h1, h2, h3, h4, h5, h6⟩ := ih (insert n v) (n :: s)
        refine ⟨p ++ [n], ?_, ?_, ?_, ?_, ?_, ?_⟩
        · have heq : pushFresh v s (n :: ns) = pushFresh (insert n v) (n :: s) ns := by
            simp [pushFresh, hn]
          rw [heq, h1]
          ext x
          simp only [Finset.mem_union, Finset.mem_insert, List.mem_toFinset, List.mem_append,
            List.mem_singleton]
          tauto
        · have heq : pushFresh v s (n :: ns) = pushFresh (insert n v) (n :: s) ns := by
            simp [pushFresh, hn]
          rw [heq, h2, List.append_assoc]
          rfl
        · rw [List.nodup_append]
          refine ⟨h3, List.nodup_singleton n, ?_⟩
          intro a ha hb
          rcases List.mem_singleton.1 hb with rfl
          exact (h5 a ha) (Finset.mem_insert_self a v)
        · intro x hx
          rcases List.mem_append.1 hx with hx' | hx'
          · exact List.mem_cons_of_mem n (h4 x hx')
          · rcases List.mem_singleton.1 hx' with rfl
            exact List.mem_cons_self _ _
        · intro x hx
          rcases List.mem_append.1 hx with hx' | hx'
          · exact fun hv => (h5 x hx') (Finset.mem_insert_of_mem hv)
          · rcases List.mem_singleton.1 hx' with rfl
            exact hn
        · intro y hy
          rcases List.mem_cons.1 hy with rfl | hy'
          · exact Or.inr (List.mem_append.2 (Or.inr (List.mem_singleton.2 rfl)))
          · rcases h6 y hy' with hv | hp
            · rcases Finset.mem_insert.1 hv with rfl | hv'
              · exact Or.inr (List.mem_append.2 (Or.inr (List.mem_singleton.2 rfl)))
              · exact Or.inl hv'
            · exact Or.inr (List.mem_append.2 (Or.inl hp))

/-- Full specification of the DFS loop, given enough fuel: visited only
grows and stays inside the universe, the produced component is
duplicate-free, it consists of the old component plus the stack plus the
newly visited nodes, and every neighbour of a popped node ends up
visited. -/
theorem dfsLoop_spec (nbrs : String → List String) (univ : Finset String)
    (hn : ∀ x y, y ∈ nbrs x → y ∈ univ) :
    ∀ (fuel : Nat) (v : Finset String) (s c : List String),
      s.Nodup → c.Nodup → (∀ x ∈ s, x ∉ c) →
      (∀ x ∈ s, x ∈ v) → (∀ x ∈ c, x ∈ v) → v ⊆ univ →
      s.length + (univ.card - v.card) ≤ fuel →
      (∀ x ∈ c, ∀ y ∈ nbrs x, y ∈ v) →
      v ⊆ (dfsLoop nbrs fuel v s c).1 ∧
      (dfsLoop nbrs fuel v s c).1 ⊆ univ ∧
      (dfsLoop nbrs fuel v s c).2.Nodup ∧
      (dfsLoop nbrs fuel v s c).2.toFinset =
        c.toFinset ∪ s.toFinset ∪ ((dfsLoop nbrs fuel v s c).1 \ v) ∧
      (∀ x ∈ (dfsLoop nbrs fuel v s c).2, ∀ y ∈ nbrs x, y ∈ (dfsLoop nbrs fuel v s c).1) := by
  intro fuel
  induction fuel with
  | zero =>
      intro v s c _ hc _ _ _ hvu hfuel hcl
      have hs0 : s = [] := List.length_eq_zero.1 (by omega)
      subst hs0
      refine ⟨Finset.Subset.refl v, hvu, hc, by simp [dfsLoop], hcl⟩
  | succ fuel ih =>
      intro v s c hs hc hsc hsv hcv hvu hfuel hcl
      cases s with
      | nil =>
          refine ⟨Finset.Subset.refl v, hvu, hc, by simp [dfsLoop], hcl⟩
      | cons cur rest =>
          obtain ⟨p, h1, h2, h3, h4, h5, h6⟩ := pushFresh_spec (nbrs cur) v rest
          have hstep : dfsLoop nbrs (fuel + 1) v (cur :: rest) c =
              dfsLoop nbrs fuel (pushFresh v rest (nbrs cur)).1 (pushFresh v rest (nbrs cur)).2
                (cur :: c) := rfl
          have hrest_nodup : rest.Nodup := (List.nodup_cons.1 hs).2
          have hcur_rest : cur ∉ rest := (List.nodup_cons.1 hs).1
          have hcurv : cur ∈ v := hsv cur (List.mem_cons_self _ _)
          have hrestv : ∀ x ∈ rest, x ∈ v := fun x hx => hsv x (List.mem_cons_of_mem _ hx)
          have hpv : ∀ x ∈ p, x ∈ v ∪ p.toFinset := fun x hx =>
            Finset.mem_union_right _ (List.mem_toFinset.2 hx)
          have hvv' : v ⊆ v ∪ p.toFinset := Finset.subset_union_left
          have hv'u : v ∪ p.toFinset ⊆ univ := by
            refine Finset.union_subset hvu ?_
            intro x hx
            exact hn cur x (h4 x (List.mem_toFinset.1 hx))
          have hdisj : Disjoint v p.toFinset := by
            rw [Finset.disjoint_left]
            intro a ha hap
            exact h5 a (List.mem_toFinset.1 hap) ha
          have hcard : (v ∪ p.toFinset).card = v.card + p.length := by
            rw [Finset.card_union_of_disjoint hdisj, List.toFinset_card_of_nodup h3]
          have hcardle : (v ∪ p.toFinset).card ≤ univ.card := Finset.card_le_card hv'u
          -- preconditions of the recursive call
          have pre1 : (p ++ rest).Nodup := by
            rw [List.nodup_append]
            refine ⟨h3, hrest_nodup, ?_⟩
            intro a ha hb
            exact h5 a ha (hrestv a hb)
          have pre2 : (cur :: c).Nodup :=
            List.nodup_cons.2 ⟨hsc cur (List.mem_cons_self _ _), hc⟩
          have pre3 : ∀ x ∈ p ++ rest, x ∉ cur :: c := by
            intro x hx
            rcases List.mem_append.1 hx with hx' | hx'
            · intro hmem
              rcases List.mem_cons.1 hmem with rfl | hmem'
              · exact h5 x hx' hcurv
              · exact h5 x hx' (hcv x hmem')
            · intro hmem
              rcases List.mem_cons.1 hmem with rfl | hmem'
              · exact hcur_rest hx'
              · exact hsc x (List.mem_cons_of_mem _ hx') hmem'
          have pre4 : ∀ x ∈ p ++ rest, x ∈ v ∪ p.toFinset := by
            intro x hx
            rcases List.mem_append.1 hx with hx' | hx'
            · exact hpv x hx'
            · exact hvv' (hrestv x hx')
          have pre5 : ∀ x ∈ cur :: c, x ∈ v ∪ p.toFinset := by
            intro x hx
            rcases List.mem_cons.1 hx with rfl | hx'
            · exact hvv' hcurv
            · exact hvv' (hcv x hx')
          have pre7 : (p ++ rest).length + (univ.card - (v ∪ p.toFinset).card) ≤ fuel := by
            rw [List.length_append, hcard]
            have hbound : (cur :: rest).length + (univ.card - v.card) ≤ fuel + 1 := hfuel
            simp only [List.length_cons] at hbound
            omega
          have pre8 : ∀ x ∈ cur :: c, ∀ y ∈ nbrs x, y ∈ v ∪ p.toFinset := by
            intro x hx y hy
            rcases List.mem_cons.1 hx with rfl | hx'
            · rcases h6 y hy with h | h
              · exact hvv' h
              · exact Finset.mem_union_right _ (List.mem_toFinset.2 h)
            · exact hvv' (hcl x hx' y hy)
          have hrec := ih (v ∪ p.toFinset) (p ++ rest) (cur :: c)
            pre1 pre2 pre3 pre4 pre5 hv'u pre7 pre8
          rw [hstep, h1, h2]
          set r := dfsLoop nbrs fuel (v ∪ p.toFinset) (p ++ rest) (cur :: c) with hrdef
          clear_value r
          clear hrdef hstep
          obtain ⟨q1, q2, q3, q4, q5⟩ := hrec
          refine ⟨hvv'.trans q1, q2, q3, ?_, q5⟩
          · rw [q4]
            have hsplit : ∀ x, (x ∈ r.1 ∧ x ∉ v) ↔
                ((x ∈ r.1 ∧ x ∉ v ∪ p.toFinset) ∨ x ∈ p) := by
              intro x
              constructor
              · rintro ⟨hx1, hxv⟩
                by_cases hxp : x ∈ p
                · exact Or.inr hxp
                · refine Or.inl ⟨hx1, ?_⟩
                  rw [Finset.mem_union]
                  rintro (h | h)
                  · exact hxv h
                  · exact hxp (List.mem_toFinset.1 h)
              · rintro (⟨hx1, hxv'⟩ | hxp)
                · exact ⟨hx1, fun hv => hxv' (hvv' hv)⟩
                · exact ⟨q1 (Finset.mem_union_right _ (List.mem_toFinset.2 hxp)), h5 x hxp⟩
            ext x
            have h := hsplit x
            clear hsplit q1 q2 q3 q5 ih hn pre1 pre2 pre3 pre4 pre5 pre7 pre8 hfuel
            clear h1 h2 h3 h4 h6 hpv hdisj hcard hcardle hv'u hvv' h5
            clear hrest_nodup hcur_rest hcurv hrestv hs hc hsc hsv hcv hvu hcl
            simp only [Finset.mem_union, Finset.mem_sdiff, List.toFinset_cons, List.toFinset_append,
              Finset.mem_insert, List.mem_toFinset] at h ⊢
            tauto

/-- Specification of the outer component-collection loop: the final
visited set is inside the universe, components are duplicate-free and
pairwise disjoint, the visited set is exactly the union of the
components, and every listed id ends up visited. -/
theorem componentsLoop_spec (nbrs : String → List String) (univ : Finset String)
    (hn : ∀ x y, y ∈ nbrs x → y ∈ univ) (fuel : Nat) (hfuel : univ.card + 1 ≤ fuel) :
    ∀ (ids : List String) (v : Finset String) (acc : List (List String)),
      (∀ i ∈ ids, i ∈ univ) → v ⊆ univ →
      (∀ comp ∈ acc, comp.Nodup) →
      List.Pairwise (fun c₁ c₂ => ∀ x ∈ c₁, x ∉ c₂) acc →
      (∀ x, x ∈ v ↔ ∃ comp ∈ acc, x ∈ comp) →
      (componentsLoop nbrs fuel ids v acc).1 ⊆ univ ∧
      (∀ comp ∈ (componentsLoop nbrs fuel ids v acc).2, comp.Nodup) ∧
      List.Pairwise (fun c₁ c₂ => ∀ x ∈ c₁, x ∉ c₂) (componentsLoop nbrs fuel ids v acc).2 ∧
      (∀ x, x ∈ (componentsLoop nbrs fuel ids v acc).1 ↔
        ∃ comp ∈ (componentsLoop nbrs fuel ids v acc).2, x ∈ comp) ∧
      (∀ i ∈ ids, i ∈ (componentsLoop nbrs fuel ids v acc).1) ∧
      v ⊆ (componentsLoop nbrs fuel ids v acc).1 := by
  intro ids
  induction ids with
  | nil =>
      intro v acc _ hv hnd hpw hmem
      exact ⟨hv, hnd, hpw, hmem, by simp, Finset.Subset.refl v⟩
  | cons i ids ih =>
      intro v acc hids hv hnd hpw hmem
      by_cases hi : i ∈ v
      · have hstep : componentsLoop nbrs fuel (i :: ids) v acc = componentsLoop nbrs fuel ids v acc := by
          simp [componentsLoop, hi]
        rw [hstep]
        obtain ⟨r1, r2, r3, r4, r5, r6⟩ :=
          ih v acc (fun j hj => hids j (List.mem_cons_of_mem _ hj)) hv hnd hpw hmem
        refine ⟨r1, r2, r3, r4, ?_, r6⟩
        intro j hj
        rcases List.mem_cons.1 hj with rfl | hj'
        · exact r6 hi
        · exact r5 j hj'
      · have hstep : componentsLoop nbrs fuel (i :: ids) v acc =
            componentsLoop nbrs fuel ids (dfsLoop nbrs fuel (insert i v) [i] []).1
              (acc ++ [(dfsLoop nbrs fuel (insert i v) [i] []).2]) := by
          simp [componentsLoop, hi]
        rw [hstep]
        have hiu : i ∈ univ := hids i (List.mem_cons_self _ _)
        have hivu : insert i v ⊆ univ := Finset.insert_subset hiu hv
        have hcard : (insert i v).card ≤ univ.card := Finset.card_le_card hivu
        obtain ⟨q1, q2, q3, q4, q5⟩ := dfsLoop_spec nbrs univ hn fuel (insert i v) [i] []
          (List.nodup_singleton i) List.nodup_nil (by simp) (by simp) (by simp) hivu
          (by simp only [List.length_singleton]; omega) (by simp)
        set r0 := dfsLoop nbrs fuel (insert i v) [i] [] with hr0
        clear_value r0
        have hvv1 : v ⊆ r0.1 := (Finset.subset_insert i v).trans q1
        have hcompfin : r0.2.toFinset = r0.1 \ v := by
          rw [q4]
          ext x
          simp only [Finset.mem_union, Finset.mem_sdiff, List.toFinset_cons, List.toFinset_nil,
            Finset.mem_insert, Finset.empty_union, Finset.not_mem_empty, Finset.mem_singleton,
            or_false, false_or]
          constructor
          · rintro (hxi | ⟨hx1, hx2⟩)
            · subst hxi
              exact ⟨q1 (Finset.mem_insert_self x v), hi⟩
            · exact ⟨hx1, fun hxv => hx2 (Or.inr hxv)⟩
          · rintro ⟨hx1, hx2⟩
            by_cases hxi : x = i
            · exact Or.inl hxi
            · exact Or.inr ⟨hx1, fun hor => hx2 (hor.resolve_left hxi)⟩
        have hmemcomp : ∀ x, x ∈ r0.2 ↔ (x ∈ r0.1 ∧ x ∉ v) := by
          intro x
          rw [← List.mem_toFinset, hcompfin, Finset.mem_sdiff]
        refine ih r0.1 (acc ++ [r0.2]) (fun j hj => hids j (List.mem_cons_of_mem _ hj)) q2 ?_ ?_ ?_
          |>.imp id (fun h => h.imp id (fun h => h.imp id (fun h => h.imp id (fun h => ?_))))
        · intro comp hcomp
          rcases List.mem_append.1 hcomp with hcomp' | hcomp'
          · exact hnd comp hcomp'
          · rcases List.mem_singleton.1 hcomp' with rfl
            exact q3
        · rw [List.pairwise_append]
          refine ⟨hpw, List.pairwise_singleton _ _, ?_⟩
          intro c₁ hc₁ c₂ hc₂ x hx
          rcases List.mem_singleton.1 hc₂ with rfl
          intro hxc
          exact ((hmemcomp x).1 hxc).2 ((hmem x).2 ⟨c₁, hc₁, hx⟩)
        · intro x
          constructor
          · intro hx1
            by_cases hxv : x ∈ v
            · obtain ⟨c, hc, hxc⟩ := (hmem x).1 hxv
              exact ⟨c, List.mem_append.2 (Or.inl hc), hxc⟩
            · exact ⟨r0.2, List.mem_append.2 (Or.inr (List.mem_singleton.2 rfl)),
                (hmemcomp x).2 ⟨hx1, hxv⟩⟩
          · rintro ⟨c, hc, hxc⟩
            rcases List.mem_append.1 hc with hc' | hc'
            · exact hvv1 ((hmem x).2 ⟨c, hc', hxc⟩)
            · rcases List.mem_singleton.1 hc' with rfl
              exact ((hmemcomp x).1 hxc).1
        · obtain ⟨h5, h6⟩ := h
          refine ⟨?_, hvv1.trans h6⟩
          intro j hj
          rcases List.mem_cons.1 hj with rfl | hj'
          · exact h6 (q1 (Finset.mem_insert_self j v))
          · exact h5 j hj'

/-- For a symmetric adjacency, two adjacent nodes end up in the same
component: pair-tracking invariant through the outer loop. -/
theorem componentsLoop_pair (nbrs : String → List String) (univ : Finset String)
    (hn : ∀ x y, y ∈ nbrs x → y ∈ univ)
    (hsym : ∀ x y, y ∈ nbrs x → x ∈ nbrs y)
    (fuel : Nat) (hfuel : univ.card + 1 ≤ fuel) (a b : String) (hab : b ∈ nbrs a) :
    ∀ (ids : List String) (v : Finset String) (acc : List (List String)),
      (∀ i ∈ ids, i ∈ univ) → v ⊆ univ →
      ((a ∉ v ∧ b ∉ v) ∨ (∃ comp ∈ acc, a ∈ comp ∧ b ∈ comp)) →
      a ∈ (componentsLoop nbrs fuel ids v acc).1 →
      ∃ comp ∈ (componentsLoop nbrs fuel ids v acc).2, a ∈ comp ∧ b ∈ comp := by
  intro ids
  induction ids with
  | nil =>
      intro v acc _ _ hinv ha
      rcases hinv with ⟨hav, _⟩ | hgood
      · exact absurd ha hav
      · exact hgood
  | cons i ids ih =>
      intro v acc hids hv hinv
      by_cases hi : i ∈ v
      · have hstep : componentsLoop nbrs fuel (i :: ids) v acc = componentsLoop nbrs fuel ids v acc := by
          simp [componentsLoop, hi]
        rw [hstep]
        exact ih v acc (fun j hj => hids j (List.mem_cons_of_mem _ hj)) hv hinv
      · have hstep : componentsLoop nbrs fuel (i :: ids) v acc =
            componentsLoop nbrs fuel ids (dfsLoop nbrs fuel (insert i v) [i] []).1
              (acc ++ [(dfsLoop nbrs fuel (insert i v) [i] []).2]) := by
          simp [componentsLoop, hi]
        rw [hstep]
        have hiu : i ∈ univ := hids i (List.mem_cons_self _ _)
        have hivu : insert i v ⊆ univ := Finset.insert_subset hiu hv
        have hcard : (insert i v).card ≤ univ.card := Finset.card_le_card hivu
        obtain ⟨q1, q2, q3, q4, q5⟩ := dfsLoop_spec nbrs univ hn fuel (insert i v) [i] []
          (List.nodup_singleton i) List.nodup_nil (by simp) (by simp) (by simp) hivu
          (by simp only [List.length_singleton]; omega) (by simp)
        set r0 := dfsLoop nbrs fuel (insert i v) [i] [] with hr0
        clear_value r0
        have hvv1 : v ⊆ r0.1 := (Finset.subset_insert i v).trans q1
        have hmemcomp : ∀ x, x ∈ r0.2 ↔ (x ∈ r0.1 ∧ x ∉ v) := by
          intro x
          rw [← List.mem_toFinset, q4]
          simp only [Finset.mem_union, Finset.mem_sdiff, List.toFinset_cons, List.toFinset_nil,
            Finset.mem_insert, Finset.empty_union, Finset.not_mem_empty, Finset.mem_singleton,
            or_false, false_or]
          constructor
          · rintro (hxi | ⟨hx1, hx2⟩)
            · subst hxi
              exact ⟨q1 (Finset.mem_insert_self x v), hi⟩
            · exact ⟨hx1, fun hxv => hx2 (Or.inr hxv)⟩
          · rintro ⟨hx1, hx2⟩
            by_cases hxi : x = i
            · exact Or.inl hxi
            · exact Or.inr ⟨hx1, fun hor => hx2 (hor.resolve_left hxi)⟩
        refine ih r0.1 (acc ++ [r0.2]) (fun j hj => hids j (List.mem_cons_of_mem _ hj)) q2 ?_
        rcases hinv with ⟨hav, hbv⟩ | ⟨comp, hcomp, hacomp, hbcomp⟩
        · by_cases ha1 : a ∈ r0.1
          · have hacomp : a ∈ r0.2 := (hmemcomp a).2 ⟨ha1, hav⟩
            have hb1 : b ∈ r0.1 := q5 a hacomp b hab
            have hbcomp : b ∈ r0.2 := (hmemcomp b).2 ⟨hb1, hbv⟩
            exact Or.inr ⟨r0.2, List.mem_append.2 (Or.inr (List.mem_singleton.2 rfl)),
              hacomp, hbcomp⟩
          · by_cases hb1 : b ∈ r0.1
            · have hbcomp : b ∈ r0.2 := (hmemcomp b).2 ⟨hb1, hbv⟩
              exact absurd (q5 b hbcomp a (hsym a b hab)) ha1
            · exact Or.inl ⟨ha1, hb1⟩
        · exact Or.inr ⟨comp, List.mem_append.2 (Or.inl hcomp), hacomp, hbcomp⟩

/-- The components of a run partition the id set: duplicate-free,
pairwise disjoint, and jointly covering exactly the listed ids. -/
theorem componentsOf_partition (nbrs : String → List String) (ids : List String)
    (hn : ∀ x y, y ∈ nbrs x → y ∈ ids.toFinset) :
    (∀ comp ∈ componentsOf nbrs ids, comp.Nodup) ∧
    List.Pairwise (fun c₁ c₂ => ∀ x ∈ c₁, x ∉ c₂) (componentsOf nbrs ids) ∧
    (∀ x, (∃ comp ∈ componentsOf nbrs ids, x ∈ comp) ↔ x ∈ ids) := by
  have hfuel : ids.toFinset.card + 1 ≤ ids.length + 1 := by
    have := List.toFinset_card_le ids
    omega
  obtain ⟨r1, r2, r3, r4, r5, _⟩ := componentsLoop_spec nbrs ids.toFinset hn (ids.length + 1) hfuel
    ids ∅ [] (fun i hi => List.mem_toFinset.2 hi) (Finset.empty_subset _) (by simp) List.Pairwise.nil
    (by simp)
  refine ⟨r2, r3, ?_⟩
  intro x
  simp only [componentsOf]
  rw [← r4 x]
  constructor
  · intro hx
    exact List.mem_toFinset.1 (r1 hx)
  · intro hx
    exact r5 x hx

/-- In a symmetric adjacency, adjacent in-run nodes share a component. -/
theorem componentsOf_pair (nbrs : String → List String) (ids : List String)
    (hn : ∀ x y, y ∈ nbrs x → y ∈ ids.toFinset)
    (hsym : ∀ x y, y ∈ nbrs x → x ∈ nbrs y)
    (a b : String) (hab : b ∈ nbrs a) (ha : a ∈ ids) :
    ∃ comp ∈ componentsOf nbrs ids, a ∈ comp ∧ b ∈ comp := by
  have hfuel : ids.toFinset.card + 1 ≤ ids.length + 1 := by
    have := List.toFinset_card_le ids
    omega
  obtain ⟨_, _, _, _, r5, _⟩ := componentsLoop_spec nbrs ids.toFinset hn (ids.length + 1) hfuel
    ids ∅ [] (fun i hi => List.mem_toFinset.2 hi) (Finset.empty_subset _) (by simp) List.Pairwise.nil
    (by simp)
  simp only [componentsOf]
  exact componentsLoop_pair nbrs ids.toFinset hn hsym (ids.length + 1) hfuel a b hab ids ∅ []
    (fun i hi => List.mem_toFinset.2 hi) (Finset.empty_subset _)
    (Or.inl ⟨Finset.not_mem_empty a, Finset.not_mem_empty b⟩) (r5 a ha)

/-! ## Bundle Clusterer lemmas -/

/-- Stable descending insertion permutes. -/
theorem insertDesc_perm (c : List String) : ∀ l, (insertDesc c l).Perm (c :: l) := by
  intro l
  induction l with
  | nil => simp [insertDesc]
  | cons d ds ih =>
      by_cases h : d.length ≤ c.length
      · simp [insertDesc, h]
      · simp only [insertDesc, if_neg h]
        exact (ih.cons d).trans (List.Perm.swap c d ds)

/-- The size-descending sort permutes the component list. -/
theorem sortDesc_perm : ∀ l, (sortDesc l).Perm l := by
  intro l
  induction l with
  | nil => simp [sortDesc]
  | cons c cs ih =>
      have hstep : sortDesc (c :: cs) = insertDesc c (sortDesc cs) := rfl
      rw [hstep]
      exact (insertDesc_perm c (sortDesc cs)).trans (ih.cons c)

/-- Membership in `insertNew`. -/
theorem mem_insertNew (b y : String) (l : List String) : y ∈ insertNew b l ↔ y = b ∨ y ∈ l := by
  unfold insertNew
  split
  · next h =>
      constructor
      · exact Or.inr
      · rintro (rfl | hy)
        · exact h
        · exact hy
  · exact List.mem_cons

/-- Membership after `addEdge`: an old neighbour or one of the two new
directed entries. -/
theorem addEdge_nbrs_mem (st : BState) (a b : String) (w : Nat) (x y : String)
    (h : y ∈ (addEdge st a b w).nbrs x) :
    y ∈ st.nbrs x ∨ (x = a ∧ y = b) ∨ (x = b ∧ y = a) := by
  simp only [addEdge] at h
  by_cases hxb : x = b
  · rw [if_pos hxb] at h
    rcases (mem_insertNew _ _ _).1 h with rfl | h'
    · exact Or.inr (Or.inr ⟨hxb, rfl⟩)
    · by_cases hba : b = a
      · rw [if_pos hba] at h'
        rcases (mem_insertNew _ _ _).1 h' with rfl | h''
        · exact Or.inr (Or.inl ⟨hxb.trans hba, rfl⟩)
        · exact Or.inl (by rw [hxb, hba]; exact h'')
      · rw [if_neg hba] at h'
        exact Or.inl (by rw [hxb]; exact h')
  · rw [if_neg hxb] at h
    by_cases hxa : x = a
    · rw [if_pos hxa] at h
      rcases (mem_insertNew _ _ _).1 h with rfl | h'
      · exact Or.inr (Or.inl ⟨hxa, rfl⟩)
      · exact Or.inl (by rw [hxa]; exact h')
    · rw [if_neg hxa] at h
      exact Or.inl h

/-- `addEdge` only grows the neighbour sets. -/
theorem addEdge_nbrs_mono (st : BState) (a b : String) (w : Nat) (x y : String)
    (h : y ∈ st.nbrs x) : y ∈ (addEdge st a b w).nbrs x := by
  simp only [addEdge]
  by_cases hxb : x = b
  · rw [if_pos hxb]
    refine (mem_insertNew _ _ _).2 (Or.inr ?_)
    by_cases hba : b = a
    · rw [if_pos hba]
      refine (mem_insertNew _ _ _).2 (Or.inr ?_)
      rw [← hba, ← hxb]
      exact h
    · rw [if_neg hba, ← hxb]
      exact h
  · rw [if_neg hxb]
    by_cases hxa : x = a
    · rw [if_pos hxa]
      refine (mem_insertNew _ _ _).2 (Or.inr ?_)
      rw [← hxa]
      exact h
    · rw [if_neg hxa]
      exact h

/-- `addEdge` records `b` as a neighbour of `a`. -/
theorem addEdge_nbrs_new₁ (st : BState) (a b : String) (w : Nat) :
    b ∈ (addEdge st a b w).nbrs a := by
  simp only [addEdge]
  by_cases hab : a = b
  · subst hab
    simp [mem_insertNew]
  · rw [if_neg hab]
    simp [mem_insertNew]

/-- `addEdge` records `a` as a neighbour of `b`. -/
theorem addEdge_nbrs_new₂ (st : BState) (a b : String) (w : Nat) :
    a ∈ (addEdge st a b w).nbrs b := by
  simp only [addEdge, if_pos rfl]
  exact (mem_insertNew _ _ _).2 (Or.inl rfl)

/-- `addEdge` never lowers an affinity. -/
theorem addEdge_aff_mono (st : BState) (a b : String) (w : Nat) (k : String × String) :
    st.aff k ≤ (addEdge st a b w).aff k := by
  simp only [addEdge]
  split
  · next h =>
      rw [h]
      exact le_max_left _ _
  · exact le_rfl

/-- `addEdge` raises the affinity of its pair key to at least `w`. -/
theorem addEdge_aff_set (st : BState) (a b : String) (w : Nat) :
    w ≤ (addEdge st a b w).aff (pairKey a b) := by
  simp only [addEdge, if_pos rfl]
  exact le_max_right _ _

/-- Every neighbour entry built by the clusterer joins two in-run ids. -/
theorem buildBState_nbrs_sub (loads : String → Option PyVal) (apps : List App) :
    ∀ x y, y ∈ (buildBState loads apps).nbrs x →
      y ∈ apps.map App.id ∧ x ∈ apps.map App.id := by
  unfold buildBState
  refine foldlPres (fun st : BState => ∀ x y, y ∈ st.nbrs x → y ∈ apps.map App.id ∧ x ∈ apps.map App.id)
    _ _ _ ?_ ?_
  · intro st app happ hst
    unfold bundleApp
    refine foldlPres (fun st : BState => ∀ x y, y ∈ st.nbrs x → y ∈ apps.map App.id ∧ x ∈ apps.map App.id) _ _ _ ?_ (foldlPres (fun st : BState => ∀ x y, y ∈ st.nbrs x → y ∈ apps.map App.id ∧ x ∈ apps.map App.id) _ _ _ ?_ hst)
    · intro st2 d _ hst2
      unfold dbLinkStep
      split
      · refine foldlPres (fun st : BState => ∀ x y, y ∈ st.nbrs x → y ∈ apps.map App.id ∧ x ∈ apps.map App.id) _ _ _ ?_ hst2
        intro st3 other hother hst3
        split
        · exact hst3
        · split
          · intro x y hy
            rcases addEdge_nbrs_mem st3 app.id other.id 4 x y hy with hold | ⟨rfl, rfl⟩ | ⟨rfl, rfl⟩
            · exact hst3 x y hold
            · exact ⟨List.mem_map.2 ⟨other, hother, rfl⟩, List.mem_map.2 ⟨app, happ, rfl⟩⟩
            · exact ⟨List.mem_map.2 ⟨app, happ, rfl⟩, List.mem_map.2 ⟨other, hother, rfl⟩⟩
          · exact hst3
      · exact hst2
    · intro st2 l _ hst2
      unfold appLinkStep
      split
      · next htgt =>
          intro x y hy
          rcases addEdge_nbrs_mem st2 app.id l.target _ x y hy with hold | ⟨rfl, rfl⟩ | ⟨rfl, rfl⟩
          · exact hst2 x y hold
          · exact ⟨htgt, List.mem_map.2 ⟨app, happ, rfl⟩⟩
          · exact ⟨List.mem_map.2 ⟨app, happ, rfl⟩, htgt⟩
      · exact hst2
  · intro x y hy
    exact absurd hy (List.not_mem_nil y)

/-- The built adjacency is symmetric (every edge is added both ways). -/
theorem buildBState_sym (loads : String → Option PyVal) (apps : List App) :
    ∀ x y, y ∈ (buildBState loads apps).nbrs x → x ∈ (buildBState loads apps).nbrs y := by
  unfold buildBState
  refine foldlPres (fun st : BState => ∀ x y, y ∈ st.nbrs x → x ∈ st.nbrs y) _ _ _ ?_ ?_
  · intro st app _ hst
    unfold bundleApp
    refine foldlPres (fun st : BState => ∀ x y, y ∈ st.nbrs x → x ∈ st.nbrs y) _ _ _ ?_ (foldlPres (fun st : BState => ∀ x y, y ∈ st.nbrs x → x ∈ st.nbrs y) _ _ _ ?_ hst)
    · intro st2 d _ hst2
      unfold dbLinkStep
      split
      · refine foldlPres (fun st : BState => ∀ x y, y ∈ st.nbrs x → x ∈ st.nbrs y) _ _ _ ?_ hst2
        intro st3 other _ hst3
        split
        · exact hst3
        · split
          · intro x y hy
            rcases addEdge_nbrs_mem _ _ _ _ x y hy with hold | ⟨rfl, rfl⟩ | ⟨rfl, rfl⟩
            · exact addEdge_nbrs_mono _ _ _ _ _ _ (hst3 x y hold)
            · exact addEdge_nbrs_new₂ _ _ _ _
            · exact addEdge_nbrs_new₁ _ _ _ _
          · exact hst3
      · exact hst2
    · intro st2 l _ hst2
      unfold appLinkStep
      split
      · intro x y hy
        rcases addEdge_nbrs_mem _ _ _ _ x y hy with hold | ⟨rfl, rfl⟩ | ⟨rfl, rfl⟩
        · exact addEdge_nbrs_mono _ _ _ _ _ _ (hst2 x y hold)
        · exact addEdge_nbrs_new₂ _ _ _ _
        · exact addEdge_nbrs_new₁ _ _ _ _
      · exact hst2
  · intro x y hy
    exact absurd hy (List.not_mem_nil y)

/-- If A has a tight db link to a datastore that B also links to, the
built state has affinity ≥ 4 on the pair and records the adjacency. -/
theorem buildBState_pair (loads : String → Option PyVal) (apps : List App)
    (A B : App) (hA : A ∈ apps) (hB : B ∈ apps) (hne : ¬ B.id = A.id)
    (d : DbLink) (hd : d ∈ (extractIntegrationModel loads A.findings).db_links)
    (htight : d.coupling = "tight")
    (hBd : d.datastore ∈ (extractIntegrationModel loads B.findings).db_links.map DbLink.datastore) :
    4 ≤ (buildBState loads apps).aff (pairKey A.id B.id) ∧
    B.id ∈ (buildBState loads apps).nbrs A.id := by
  unfold buildBState
  set P := fun st : BState => 4 ≤ st.aff (pairKey A.id B.id) ∧ B.id ∈ st.nbrs A.id with hP
  have hmono : ∀ (st : BState) (a b : String) (w : Nat), P st → P (addEdge st a b w) :=
    fun st a b w h => ⟨le_trans h.1 (addEdge_aff_mono st a b w _),
      addEdge_nbrs_mono st a b w _ _ h.2⟩
  have hpresDb : ∀ (appId : String) (st : BState) (dl : DbLink),
      P st → P (dbLinkStep loads apps appId st dl) := by
    intro appId st dl h
    unfold dbLinkStep
    split
    · refine foldlPres P _ apps st ?_ h
      intro st2 other _ h2
      split
      · exact h2
      · split
        · exact hmono _ _ _ _ h2
        · exact h2
    · exact h
  have hpresApp : ∀ (ids : List String) (appId : String) (st : BState) (l : AppLink),
      P st → P (appLinkStep ids appId st l) := by
    intro ids appId st l h
    unfold appLinkStep
    split
    · exact hmono _ _ _ _ h
    · exact h
  refine foldlEstablish P (bundleApp loads apps) apps _ A hA ?_ ?_
  · intro st
    unfold bundleApp
    refine foldlEstablish P (dbLinkStep loads apps A.id) _ _ d hd ?_
      (fun s dl _ hh => hpresDb _ s dl hh)
    intro st2
    unfold dbLinkStep
    rw [if_pos htight]
    refine foldlEstablish P _ apps st2 B hB ?_ ?_
    · intro st3
      rw [if_neg hne, if_pos hBd]
      exact ⟨addEdge_aff_set st3 A.id B.id 4, addEdge_nbrs_new₁ st3 A.id B.id 4⟩
    · intro s other _ hh
      split
      · exact hh
      · split
        · exact hmono _ _ _ _ hh
        · exact hh
  · intro s app hap hh
    unfold bundleApp
    exact foldlPres P _ _ _ (fun s2 dl _ h2 => hpresDb _ s2 dl h2)
      (foldlPres P _ _ _ (fun s2 l _ h2 => hpresApp _ _ s2 l h2) hh)

/-- `app_map[x]` has id `x` for every in-run id. -/
theorem appLookup_id (apps : List App) (x : String) (hx : x ∈ apps.map App.id) :
    (appLookup apps x).id = x := by
  unfold appLookup
  obtain ⟨a, ha, rfl⟩ := List.mem_map.1 hx
  cases hfind : (apps.reverse).find? (fun a' => a'.id = a.id) with
  | none =>
      exfalso
      have hnone := List.find?_eq_none.1 hfind a (List.mem_reverse.2 ha)
      simp at hnone
  | some a' =>
      have hpred := List.find?_some hfind
      simp only [decide_eq_true_eq] at hpred
      simpa using hpred

/-- The member-id list of a bundle is its component. -/
theorem mkBundle_app_ids (apps : List App) (aff : String × String → Nat) (j : Nat)
    (c : List String) (hc : ∀ x ∈ c, x ∈ apps.map App.id) :
    (mkBundle apps aff j c).app_ids = c := by
  have hmap : (mkBundle apps aff j c).app_ids = c.map (fun x => (appLookup apps x).id) := by
    simp [mkBundle, List.map_map]
  rw [hmap]
  have hcongr : c.map (fun x => (appLookup apps x).id) = c.map id :=
    List.map_congr_left (fun x hx => appLookup_id apps x (hc x hx))
  rw [hcongr, List.map_id]

/-- Definitional reading of a bundle's affinity score. -/
theorem mkBundle_affinity (apps : List App) (aff : String × String → Nat) (j : Nat)
    (c : List String) :
    (mkBundle apps aff j c).affinity_score = ((internalPairs c).map aff).sum := rfl

/-- Definitional reading of a bundle's coupling label. -/
theorem mkBundle_coupling (apps : List App) (aff : String × String → Nat) (j : Nat)
    (c : List String) :
    (mkBundle apps aff j c).coupling =
      (if max 4 (c.length * 2) ≤ ((internalPairs c).map aff).sum then "tight" else "loose") := rfl

/-- Every bundle of `mkBundles` is `mkBundle` of a listed component. -/
theorem mkBundles_mem (apps : List App) (aff : String × String → Nat) :
    ∀ (cs : List (List String)) (i : Nat) (b : Bundle),
      b ∈ mkBundles apps aff i cs → ∃ c ∈ cs, ∃ j, b = mkBundle apps aff j c := by
  intro cs
  induction cs with
  | nil =>
      intro i b hb
      exact absurd hb (List.not_mem_nil b)
  | cons c cs ih =>
      intro i b hb
      rcases List.mem_cons.1 hb with rfl | hb'
      · exact ⟨c, List.mem_cons_self _ _, i, rfl⟩
      · obtain ⟨c', hc', j, rfl⟩ := ih (i + 1) _ hb'
        exact ⟨c', List.mem_cons_of_mem _ hc', j, rfl⟩

/-- Every listed component yields a bundle of `mkBundles`. -/
theorem mkBundles_exists (apps : List App) (aff : String × String → Nat) :
    ∀ (cs : List (List String)) (i : Nat) (c : List String), c ∈ cs →
      ∃ j, mkBundle apps aff j c ∈ mkBundles apps aff i cs := by
  intro cs
  induction cs with
  | nil =>
      intro i c hc
      exact absurd hc (List.not_mem_nil c)
  | cons c₀ cs ih =>
      intro i c hc
      rcases List.mem_cons.1 hc with rfl | hc'
      · exact ⟨i, List.mem_cons_self _ _⟩
      · obtain ⟨j, hj⟩ := ih (i + 1) c hc'
        exact ⟨j, List.mem_cons_of_mem _ hj⟩

/-- Disjointness of components transfers to the bundles built on them. -/
theorem mkBundles_pairwise (apps : List App) (aff : String × String → Nat) :
    ∀ (cs : List (List String)) (i : Nat),
      (∀ c ∈ cs, ∀ x ∈ c, x ∈ apps.map App.id) →
      List.Pairwise (fun c₁ c₂ => ∀ x ∈ c₁, x ∉ c₂) cs →
      List.Pairwise (fun b₁ b₂ => ∀ x ∈ b₁.app_ids, x ∉ b₂.app_ids) (mkBundles apps aff i cs) := by
  intro cs
  induction cs with
  | nil =>
      intro i _ _
      exact List.Pairwise.nil
  | cons c cs ih =>
      intro i hsub hpw
      rcases List.pairwise_cons.1 hpw with ⟨hc, hrest⟩
      have hstep : mkBundles apps aff i (c :: cs) = mkBundle apps aff i c :: mkBundles apps aff (i + 1) cs := rfl
      rw [hstep]
      refine List.pairwise_cons.2 ⟨?_, ih (i + 1) (fun c' h => hsub c' (List.mem_cons_of_mem _ h)) hrest⟩
      intro b hb x hx
      obtain ⟨c', hc', j, rfl⟩ := mkBundles_mem apps aff cs (i + 1) b hb
      rw [mkBundle_app_ids apps aff i c (hsub c (List.mem_cons_self _ _))] at hx
      rw [mkBundle_app_ids apps aff j c' (hsub c' (List.mem_cons_of_mem _ hc'))]
      exact hc c' hc' x hx

/-- Unfolding of `bundles` on a non-empty run. -/
theorem bundles_eq (loads : String → Option PyVal) (apps : List App) (h : apps ≠ []) :
    bundles loads apps = mkBundles apps (buildBState loads apps).aff 1
      (sortDesc (componentsOf (buildBState loads apps).nbrs (apps.map App.id))) := by
  unfold bundles
  rw [if_neg (by simpa [List.isEmpty_iff] using h)]

/-- The disjointness relation on component lists is symmetric. -/
theorem disjointRel_symm :
    Symmetric (fun c₁ c₂ : List String => ∀ x ∈ c₁, x ∉ c₂) := by
  intro c₁ c₂ h x hx hx1
  exact h x hx1 hx

/-! ## Claim C1 -/

/-- C1: the bundles of a scan run partition its application-id set —
every id lies in the member list of some bundle, no member list has
duplicates, member lists of distinct bundles are disjoint, and every
bundled id belongs to the run. -/
theorem C1_bundle_partition (loads : String → Option PyVal) (apps : List App) :
    (∀ x, (∃ b ∈ bundles loads apps, x ∈ b.app_ids) ↔ x ∈ apps.map App.id) ∧
    (∀ b ∈ bundles loads apps, b.app_ids.Nodup) ∧
    List.Pairwise (fun b₁ b₂ => ∀ x ∈ b₁.app_ids, x ∉ b₂.app_ids) (bundles loads apps) := by
  by_cases hemp : apps = []
  · subst hemp
    refine ⟨?_, ?_, ?_⟩
    · intro x
      simp [bundles]
    · intro b hb
      simp [bundles] at hb
    · simp only [bundles]
      simp
  · rw [bundles_eq loads apps hemp]
    have hn : ∀ x y, y ∈ (buildBState loads apps).nbrs x → y ∈ (apps.map App.id).toFinset :=
      fun x y h => List.mem_toFinset.2 (buildBState_nbrs_sub loads apps x y h).1
    obtain ⟨hnodup, hpw, hcov⟩ := componentsOf_partition (buildBState loads apps).nbrs
      (apps.map App.id) hn
    have hperm := sortDesc_perm (componentsOf (buildBState loads apps).nbrs (apps.map App.id))
    have hsubc : ∀ c ∈ sortDesc (componentsOf (buildBState loads apps).nbrs (apps.map App.id)),
        ∀ x ∈ c, x ∈ apps.map App.id := by
      intro c hc x hx
      exact (hcov x).1 ⟨c, hperm.mem_iff.1 hc, hx⟩
    refine ⟨?_, ?_, ?_⟩
    · intro x
      constructor
      · rintro ⟨b, hb, hx⟩
        obtain ⟨c, hc, j, rfl⟩ := mkBundles_mem apps (buildBState loads apps).aff _ 1 b hb
        rw [mkBundle_app_ids apps _ j c (hsubc c hc)] at hx
        exact (hcov x).1 ⟨c, hperm.mem_iff.1 hc, hx⟩
      · intro hx
        obtain ⟨c, hc, hxc⟩ := (hcov x).2 hx
        have hc' : c ∈ sortDesc (componentsOf (buildBState loads apps).nbrs (apps.map App.id)) :=
          hperm.mem_iff.2 hc
        obtain ⟨j, hj⟩ := mkBundles_exists apps (buildBState loads apps).aff _ 1 c hc'
        refine ⟨mkBundle apps (buildBState loads apps).aff j c, hj, ?_⟩
        rw [mkBundle_app_ids apps _ j c (hsubc c hc')]
        exact hxc
    · intro b hb
      obtain ⟨c, hc, j, rfl⟩ := mkBundles_mem apps (buildBState loads apps).aff _ 1 b hb
      rw [mkBundle_app_ids apps _ j c (hsubc c hc)]
      exact hnodup c (hperm.mem_iff.1 hc)
    · refine mkBundles_pairwise apps (buildBState loads apps).aff _ 1 hsubc ?_
      exact (hperm.pairwise_iff (fun {c₁ c₂} h => disjointRel_symm h)).2 hpw

/-! ## Claim C2 -/

/-- C2: a bundle's coupling label is `"tight"` exactly when its affinity
score (the sum of pairwise affinities over internal pairs) reaches
`max(4, 2 × member count)`; in particular exact equality classifies
tight. -/
theorem C2_coupling_tight_iff (loads : String → Option PyVal) (apps : List App) :
    ∀ b ∈ bundles loads apps,
      (b.coupling = "tight" ↔ max 4 (2 * b.app_ids.length) ≤ b.affinity_score) := by
  intro b hb
  by_cases hemp : apps = []
  · subst hemp
    simp [bundles] at hb
  · rw [bundles_eq loads apps hemp] at hb
    obtain ⟨c, hc, j, rfl⟩ := mkBundles_mem apps (buildBState loads apps).aff _ 1 b hb
    have hlen : (mkBundle apps (buildBState loads apps).aff j c).app_ids.length = c.length := by
      simp [mkBundle]
    rw [mkBundle_coupling, mkBundle_affinity, hlen, Nat.mul_comm 2 c.length]
    by_cases hcond : max 4 (c.length * 2) ≤ ((internalPairs c).map (buildBState loads apps).aff).sum
    · rw [if_pos hcond]
      simp [hcond]
    · rw [if_neg hcond]
      constructor
      · intro h
        exact absurd h (by decide)
      · intro h
        exact absurd h hcond

/-- Witness for C2 at the first bundle of the two-app shared-postgres run. -/
theorem C2_witness :
    ((bundles loadsNone [appA, appB]).get ⟨0, by decide⟩).coupling = "tight" ↔
      max 4 (2 * ((bundles loadsNone [appA, appB]).get ⟨0, by decide⟩).app_ids.length) ≤
        ((bundles loadsNone [appA, appB]).get ⟨0, by decide⟩).affinity_score :=
  C2_coupling_tight_iff loadsNone [appA, appB] _ (List.get_mem _ _ _)

/-! ## Claim C3 -/

/-- C3: if A has a tight db link to a datastore that B (in the same run)
also links to, the clusterer gives the pair affinity at least 4 and puts
A and B into the same bundle; and concretely, two applications whose
only findings are a tight db link to `"postgres"` end up together in a
bundle labeled `"tight"`. -/
theorem C3_shared_tight_datastore :
    (∀ (loads : String → Option PyVal) (apps : List App) (A B : App) (dA dB : DbLink),
      A ∈ apps → B ∈ apps → B.id ≠ A.id →
      dA ∈ (extractIntegrationModel loads A.findings).db_links → dA.coupling = "tight" →
      dB ∈ (extractIntegrationModel loads B.findings).db_links → dB.datastore = dA.datastore →
      4 ≤ (buildBState loads apps).aff (pairKey A.id B.id) ∧
      ∃ b ∈ bundles loads apps, A.id ∈ b.app_ids ∧ B.id ∈ b.app_ids) ∧
    (∃ b ∈ bundles loadsNone [appA, appB],
      "A1" ∈ b.app_ids ∧ "B1" ∈ b.app_ids ∧ b.coupling = "tight") := by
  constructor
  · intro loads apps A B dA dB hA hB hne hdA htight hdB hsame
    have hBd : dA.datastore ∈ (extractIntegrationModel loads B.findings).db_links.map
        DbLink.datastore := List.mem_map.2 ⟨dB, hdB, hsame⟩
    obtain ⟨haff, hnbr⟩ := buildBState_pair loads apps A B hA hB hne dA hdA htight hBd
    refine ⟨haff, ?_⟩
    have hemp : apps ≠ [] := by
      intro h
      rw [h] at hA
      exact List.not_mem_nil A hA
    have hn : ∀ x y, y ∈ (buildBState loads apps).nbrs x → y ∈ (apps.map App.id).toFinset :=
      fun x y h => List.mem_toFinset.2 (buildBState_nbrs_sub loads apps x y h).1
    obtain ⟨comp, hcomp, haid, hbid⟩ := componentsOf_pair (buildBState loads apps).nbrs
      (apps.map App.id) hn (buildBState_sym loads apps) A.id B.id hnbr
      (List.mem_map.2 ⟨A, hA, rfl⟩)
    have hperm := sortDesc_perm (componentsOf (buildBState loads apps).nbrs (apps.map App.id))
    have hcomp' : comp ∈ sortDesc (componentsOf (buildBState loads apps).nbrs (apps.map App.id)) :=
      hperm.mem_iff.2 hcomp
    obtain ⟨hnodup, hpw, hcov⟩ := componentsOf_partition (buildBState loads apps).nbrs
      (apps.map App.id) hn
    have hsub : ∀ x ∈ comp, x ∈ apps.map App.id := fun x hx => (hcov x).1 ⟨comp, hcomp, hx⟩
    obtain ⟨j, hj⟩ := mkBundles_exists apps (buildBState loads apps).aff _ 1 comp hcomp'
    rw [bundles_eq loads apps hemp]
    refine ⟨mkBundle apps (buildBState loads apps).aff j comp, hj, ?_, ?_⟩
    · rw [mkBundle_app_ids apps _ j comp hsub]
      exact haid
    · rw [mkBundle_app_ids apps _ j comp hsub]
      exact hbid
  · decide

/-- Witness for C3 at the concrete two-app shared-postgres run. -/
theorem C3_witness :
    4 ≤ (buildBState loadsNone [appA, appB]).aff (pairKey ("A1") ("B1")) ∧
    ∃ b ∈ bundles loadsNone [appA, appB], "A1" ∈ b.app_ids ∧ "B1" ∈ b.app_ids :=
  C3_shared_tight_datastore.1 loadsNone [appA, appB] appA appB ⟨"postgres", "tight"⟩
    ⟨"postgres", "tight"⟩ (List.mem_cons_self _ _) (List.mem_cons_of_mem _ (List.mem_cons_self _ _))
    (by decide) (by decide) (by decide) (by decide) (by decide)

end Jarvis
